import Mathlib

/-!
Shallow embedding of the go-sse dispatch core (vc2402/go-sse).

Source files embedded: `sse.go` (Server / dispatch loop), `channel.go`
(Channel), `message.go` (Message and its wire serialization),
`options.go` (the configuration fields the core reads), and the client
file (Client).

Go maps (`map[string]*Channel`, `map[string]*Client`) are embedded as
association lists with Go's insert-replace / delete semantics.  Go
channels used as subscriber outbound queues (`chan *Message`) are
embedded as entries of an explicit `World`: a map from queue identifier
to the list of messages pushed so far plus a closed flag; `close` of an
already-closed queue and `send` on a closed queue are Go panics, so the
operations return `Option` and `none` models a panic.  Machine integers
(`int`) are embedded as `Int`; none of the embedded code paths overflow.
-/

/-- Go map lookup on an association list (first matching key). -/
def mapLookup [DecidableEq κ] : List (κ × α) → κ → Option α
  | [], _ => none
  | (k, v) :: rest, key => if k = key then some v else mapLookup rest key

/-- Go map assignment `m[key] = v`: replace the first binding of `key`,
or append a new binding when the key is absent. -/
def mapInsert [DecidableEq κ] : List (κ × α) → κ → α → List (κ × α)
  | [], key, v => [(key, v)]
  | (k, w) :: rest, key, v =>
    if k = key then (k, v) :: rest else (k, w) :: mapInsert rest key v

/-- Go map deletion `delete(m, key)`: remove the first binding of `key`. -/
def mapErase [DecidableEq κ] : List (κ × α) → κ → List (κ × α)
  | [], _ => []
  | (k, w) :: rest, key => if k = key then rest else (k, w) :: mapErase rest key

theorem mapLookup_mapInsert_self [DecidableEq κ] (l : List (κ × α)) (k : κ) (v : α) :
    mapLookup (mapInsert l k v) k = some v := by
  induction l with
  | nil => simp [mapInsert, mapLookup]
  | cons p rest ih =>
    obtain ⟨k', v'⟩ := p
    by_cases h : k' = k <;> simp [mapInsert, mapLookup, h, ih]

theorem mapLookup_mapInsert_ne [DecidableEq κ] (l : List (κ × α)) (k k' : κ) (v : α)
    (h : k' ≠ k) : mapLookup (mapInsert l k v) k' = mapLookup l k' := by
  have hk : ¬k = k' := fun hh => h hh.symm
  induction l with
  | nil => simp [mapInsert, mapLookup, hk]
  | cons p rest ih =>
    obtain ⟨k₀, v₀⟩ := p
    by_cases h0 : k₀ = k
    · subst h0
      simp [mapInsert, mapLookup, hk]
    · simp [mapInsert, mapLookup, h0, ih]

theorem mapLookup_mapErase_ne [DecidableEq κ] (l : List (κ × α)) (k k' : κ)
    (h : k' ≠ k) : mapLookup (mapErase l k) k' = mapLookup l k' := by
  have hk : ¬k = k' := fun hh => h hh.symm
  induction l with
  | nil => simp [mapErase]
  | cons p rest ih =>
    obtain ⟨k₀, v₀⟩ := p
    by_cases h0 : k₀ = k
    · subst h0
      simp [mapErase, mapLookup, hk]
    · simp [mapErase, mapLookup, h0, ih]

theorem mapLookup_eq_none_iff [DecidableEq κ] (l : List (κ × α)) (k : κ) :
    mapLookup l k = none ↔ k ∉ l.map Prod.fst := by
  induction l with
  | nil => simp [mapLookup]
  | cons p rest ih =>
    obtain ⟨k₀, v₀⟩ := p
    by_cases h0 : k₀ = k
    · subst h0
      simp [mapLookup]
    · simp only [mapLookup, if_neg h0, List.map_cons, List.mem_cons, ih]
      constructor
      · intro hn hc
        rcases hc with hc | hc
        · exact h0 hc.symm
        · exact hn hc
      · intro hn hc
        exact hn (Or.inr hc)

theorem mapLookup_mapErase_self [DecidableEq κ] (l : List (κ × α)) (k : κ)
    (h : (l.map Prod.fst).Nodup) : mapLookup (mapErase l k) k = none := by
  induction l with
  | nil => simp [mapErase, mapLookup]
  | cons p rest ih =>
    obtain ⟨k₀, v₀⟩ := p
    simp only [List.map_cons, List.nodup_cons] at h
    by_cases h0 : k₀ = k
    · subst h0
      simp only [mapErase, if_pos rfl]
      exact (mapLookup_eq_none_iff rest k₀).2 h.1
    · simp [mapErase, mapLookup, h0, ih h.2]

theorem mapLookup_mem [DecidableEq κ] (l : List (κ × α)) (k : κ) (v : α)
    (h : mapLookup l k = some v) : (k, v) ∈ l := by
  induction l with
  | nil => simp [mapLookup] at h
  | cons p rest ih =>
    obtain ⟨k₀, v₀⟩ := p
    by_cases h0 : k₀ = k
    · subst h0
      have hv : v₀ = v := by simpa [mapLookup] using h
      subst hv
      exact List.mem_cons_self _ _
    · simp only [mapLookup, if_neg h0] at h
      exact List.mem_cons_of_mem _ (ih h)

theorem mem_mapInsert [DecidableEq κ] (l : List (κ × α)) (k : κ) (v : α) (p : κ × α)
    (hp : p ∈ mapInsert l k v) : p = (k, v) ∨ p ∈ l := by
  induction l with
  | nil =>
    simp only [mapInsert, List.mem_singleton] at hp
    exact Or.inl hp
  | cons q rest ih =>
    obtain ⟨k₀, v₀⟩ := q
    by_cases h0 : k₀ = k
    · subst h0
      have he : mapInsert ((k₀, v₀) :: rest) k₀ v = (k₀, v) :: rest := by
        simp [mapInsert]
      rw [he] at hp
      rcases List.mem_cons.1 hp with hp | hp
      · exact Or.inl hp
      · exact Or.inr (List.mem_cons_of_mem _ hp)
    · simp only [mapInsert, if_neg h0, List.mem_cons] at hp
      rcases hp with hp | hp
      · exact Or.inr (by simp [hp])
      · rcases ih hp with hp' | hp'
        · exact Or.inl hp'
        · exact Or.inr (List.mem_cons_of_mem _ hp')

theorem mem_mapErase [DecidableEq κ] (l : List (κ × α)) (k : κ) (p : κ × α)
    (hp : p ∈ mapErase l k) : p ∈ l := by
  induction l with
  | nil => simp [mapErase] at hp
  | cons q rest ih =>
    obtain ⟨k₀, v₀⟩ := q
    by_cases h0 : k₀ = k
    · subst h0
      simp only [mapErase, if_pos rfl] at hp
      exact List.mem_cons_of_mem _ hp
    · simp only [mapErase, if_neg h0, List.mem_cons] at hp
      rcases hp with hp | hp
      · simp [hp]
      · exact List.mem_cons_of_mem _ (ih hp)

theorem mapInsert_ne_nil [DecidableEq κ] (l : List (κ × α)) (k : κ) (v : α) :
    mapInsert l k v ≠ [] := by
  cases l with
  | nil => simp [mapInsert]
  | cons p rest =>
    obtain ⟨k₀, v₀⟩ := p
    by_cases h0 : k₀ = k <;> simp [mapInsert, h0]

theorem length_mapInsert_of_lookup [DecidableEq κ] (l : List (κ × α)) (k : κ) (v w : α)
    (h : mapLookup l k = some w) : (mapInsert l k v).length = l.length := by
  induction l with
  | nil => simp [mapLookup] at h
  | cons p rest ih =>
    obtain ⟨k₀, v₀⟩ := p
    by_cases h0 : k₀ = k
    · simp [mapInsert, h0]
    · simp only [mapLookup, if_neg h0] at h
      simp [mapInsert, h0, ih h]

theorem mapInsert_of_lookup_eq [DecidableEq κ] (l : List (κ × α)) (k : κ) (v : α)
    (h : mapLookup l k = some v) : mapInsert l k v = l := by
  induction l with
  | nil => simp [mapLookup] at h
  | cons p rest ih =>
    obtain ⟨k₀, v₀⟩ := p
    by_cases h0 : k₀ = k
    · subst h0
      have hv : v₀ = v := by simpa [mapLookup] using h
      subst hv
      simp [mapInsert]
    · simp only [mapLookup, if_neg h0] at h
      simp [mapInsert, h0, ih h]

theorem keys_mapInsert [DecidableEq κ] (l : List (κ × α)) (k : κ) (v : α) :
    (mapInsert l k v).map Prod.fst =
      if (mapLookup l k).isSome then l.map Prod.fst else l.map Prod.fst ++ [k] := by
  induction l with
  | nil => simp [mapInsert, mapLookup]
  | cons p rest ih =>
    obtain ⟨k₀, v₀⟩ := p
    by_cases h0 : k₀ = k
    · subst h0
      simp [mapInsert, mapLookup]
    · simp only [mapInsert, if_neg h0, mapLookup, List.map_cons, ih]
      by_cases h1 : (mapLookup rest k).isSome <;> simp [h0, h1]

theorem keys_mapInsert_nodup [DecidableEq κ] (l : List (κ × α)) (k : κ) (v : α)
    (h : (l.map Prod.fst).Nodup) : ((mapInsert l k v).map Prod.fst).Nodup := by
  rw [keys_mapInsert]
  by_cases h1 : (mapLookup l k).isSome
  · simpa [h1] using h
  · have hnone : mapLookup l k = none := by
      cases hx : mapLookup l k
      · rfl
      · simp [hx] at h1
    have hnotin : k ∉ l.map Prod.fst := (mapLookup_eq_none_iff l k).1 hnone
    simp only [h1, if_false]
    simp [List.nodup_append, h, hnotin]

/-! ## Message (`message.go`) -/

/-- `Message` from `message.go`: id, data, event strings, `retry` and
`version` machine ints. -/
structure Message where
  id : String
  data : String
  event : String
  retry : Int
  version : Int
deriving DecidableEq

/-- `NewMessage(id, data, event)` from `message.go`. -/
def NewMessage (id data event : String) : Message :=
  ⟨id, data, event, 0, 0⟩

/-- `NewMessageVer(id, data, event, version)` from `message.go`. -/
def NewMessageVer (id data event : String) (version : Int) : Message :=
  ⟨id, data, event, 0, version⟩

/-- `SimpleMessage(data)` from `message.go`. -/
def SimpleMessage (data : String) : Message :=
  NewMessage "" data ""

/-- `strings.Replace(s, "\n", rep, -1)` on character lists: the pattern is
the single character newline, so replacement substitutes `rep` for every
newline character. -/
def goReplaceAllNL (rep : List Char) : List Char → List Char
  | [] => []
  | c :: rest => (if c = '\n' then rep else [c]) ++ goReplaceAllNL rep rest

/-- String wrapper for `strings.Replace(s, "\n", rep, -1)`. -/
def replaceNL (s rep : String) : String :=
  ⟨goReplaceAllNL rep.data s.data⟩

/-- `Message.String()` from `message.go`: conditional `id:` line, `retry:`
line, `event:` line, `data:` block with every embedded newline replaced by
`"\ndata: "`, and a final blank line, concatenated in source order. -/
def Message.render (m : Message) : String :=
  (if m.id.length > 0 then "id: " ++ m.id ++ "\n" else "") ++
  (if m.retry > 0 then "retry: " ++ toString m.retry ++ "\n" else "") ++
  (if m.event.length > 0 then "event: " ++ m.event ++ "\n" else "") ++
  (if m.data.length > 0 then "data: " ++ replaceNL m.data "\ndata: " ++ "\n" else "") ++
  "\n"

/-- Splitting a character list at newline characters (the lines of a
payload, used only to state the per-line property of the wire format). -/
def splitNL : List Char → List (List Char)
  | [] => [[]]
  | c :: rest =>
    if c = '\n' then [] :: splitNL rest
    else
      match splitNL rest with
      | [] => [[c]]
      | l :: ls => (c :: l) :: ls

/-- Rendering of a list of payload lines as the spec describes the `data:`
block: one `data: <line>` plus newline per line. -/
def renderDataLines : List (List Char) → List Char
  | [] => []
  | l :: ls => "data: ".data ++ l ++ '\n' :: renderDataLines ls

theorem splitNL_ne_nil (s : List Char) : splitNL s ≠ [] := by
  cases s with
  | nil => simp [splitNL]
  | cons c rest =>
    by_cases h : c = '\n'
    · simp [splitNL, h]
    · simp only [splitNL, if_neg h]
      cases splitNL rest <;> simp

theorem goReplace_split (s : List Char) :
    ∀ l ls, splitNL s = l :: ls →
      goReplaceAllNL ('\n' :: "data: ".data) s ++ ['\n'] =
        l ++ '\n' :: renderDataLines ls := by
  induction s with
  | nil =>
    intro l ls h
    simp only [splitNL] at h
    injection h with h1 h2
    subst h1
    subst h2
    simp [goReplaceAllNL, renderDataLines]
  | cons c rest ih =>
    intro l ls h
    by_cases hc : c = '\n'
    · subst hc
      simp only [splitNL, if_pos rfl] at h
      injection h with h1 h2
      subst h1
      cases hs : splitNL rest with
      | nil => exact absurd hs (splitNL_ne_nil rest)
      | cons l2 ls2 =>
        subst h2
        rw [hs]
        simp only [goReplaceAllNL, if_pos rfl, renderDataLines]
        rw [List.append_assoc, ih l2 ls2 hs]
        simp
    · simp only [splitNL, if_neg hc] at h
      cases hs : splitNL rest with
      | nil => exact absurd hs (splitNL_ne_nil rest)
      | cons l2 ls2 =>
        rw [hs] at h
        injection h with h1 h2
        subst h1
        subst h2
        simp only [goReplaceAllNL, if_neg hc]
        rw [List.append_assoc, ih l2 ls2 hs]
        simp

/-- The source's single `strings.Replace`-based `data:` block equals the
spec's line-by-line rendering: one `data: ` prefix per payload line. -/
theorem replace_eq_renderDataLines (s : List Char) :
    "data: ".data ++ goReplaceAllNL ('\n' :: "data: ".data) s ++ ['\n'] =
      renderDataLines (splitNL s) := by
  cases hs : splitNL s with
  | nil => exact absurd hs (splitNL_ne_nil s)
  | cons l ls =>
    simp only [renderDataLines]
    rw [List.append_assoc, goReplace_split s l ls hs]
    simp

theorem String.mk_append_mk (a b : List Char) :
    (⟨a⟩ : String) ++ ⟨b⟩ = ⟨a ++ b⟩ := rfl

/-- The `data:` block as the spec states it: each line of the payload
individually prefixed with `data: ` and newline-terminated. -/
def specDataSection (s : String) : String :=
  ⟨renderDataLines (splitNL s.data)⟩

/-- The source's `data:` block (a single `strings.Replace`) is exactly the
spec's one-`data: `-prefix-per-line rendering. -/
theorem dataSection_eq_spec (s : String) :
    "data: " ++ replaceNL s "\ndata: " ++ "\n" = specDataSection s := by
  obtain ⟨cs⟩ := s
  show ("data: " : String) ++ ⟨goReplaceAllNL ("\ndata: ".data) cs⟩ ++ "\n" = _
  have h1 : ("data: " : String) = ⟨"data: ".data⟩ := rfl
  have h2 : ("\n" : String) = ⟨['\n']⟩ := rfl
  have h3 : ("\ndata: ".data) = '\n' :: "data: ".data := rfl
  rw [h1, h2, h3, String.mk_append_mk, String.mk_append_mk]
  unfold specDataSection
  rw [replace_eq_renderDataLines cs]

/-! ## World: subscriber outbound queues (Go `chan *Message`)

A `Client.send` channel is identified by a `Nat`; the `World` maps each
queue identifier to its state: the messages sent into it so far and
whether it has been closed.  Sending on a closed channel and closing an
already-closed channel are Go runtime panics; nil / unknown identifiers
likewise panic.  A blocking send that eventually completes is modelled as
an append (the spec treats the queue as unbounded; the transport
collaborator drains it). -/

structure QState where
  msgs : List Message
  closed : Bool
deriving DecidableEq

abbrev World := List (Nat × QState)

/-- Is queue `q` allocated and open in `w`? -/
def qOpen (w : World) (q : Nat) : Bool :=
  match mapLookup w q with
  | some st => !st.closed
  | none => false

/-- `close(ch)`: panics (`none`) if the queue is unknown or already closed. -/
def closeQ (w : World) (q : Nat) : Option World :=
  match mapLookup w q with
  | some st => if st.closed then none else some (mapInsert w q ⟨st.msgs, true⟩)
  | none => none

/-- `ch <- m`: panics (`none`) if the queue is unknown or closed. -/
def pushQ (w : World) (q : Nat) (m : Message) : Option World :=
  match mapLookup w q with
  | some st => if st.closed then none else some (mapInsert w q ⟨st.msgs ++ [m], st.closed⟩)
  | none => none

/-- Well-formed world: queue identifiers are unique. -/
abbrev worldWF (w : World) : Prop := (w.map Prod.fst).Nodup

/-! ## Client (source term for the spec's Subscriber) -/

/-- `Client` from the client source file: last delivered event id, topic
name, subscriber identity, outbound queue reference, minimum-version
filter. -/
structure Client where
  lastEventID : String
  channel : String
  name : String
  send : Nat
  version : Int
deriving DecidableEq

/-- `newClient(lastEventID, channel, name, version)` together with the
`make(chan *Message)` allocation: returns the client plus the world
extended with its fresh open queue. -/
def newClient (w : World) (lastEventID channel name : String) (version : Int) :
    Client × World :=
  let q := (w.map Prod.fst).foldr max 0 + 1
  (⟨lastEventID, channel, name, q, version⟩, w ++ [(q, ⟨[], false⟩)])

/-- `Client.SendMessage` from the client source file:
deliver only when `message.version <= c.version`; on delivery update
`lastEventID` and push onto the outbound queue. -/
def Client.SendMessage (w : World) (c : Client) (message : Message) :
    Option (World × Client) :=
  if message.version ≤ c.version then
    (pushQ w c.send message).map fun w' => (w', { c with lastEventID := message.id })
  else
    some (w, c)

/-! ## Channel (`channel.go`; source term for the spec's Topic) -/

/-- `Channel` from `channel.go`: last event id, name, and the
`map[string]*Client` of subscribers.  The Go map holds pointers, which may
be `nil` (the removal path briefly stores `nil`), hence `Option Client`
values. -/
structure Channel where
  lastEventID : String
  name : String
  clients : List (String × Option Client)
deriving DecidableEq

/-- `newChannel(name)` from `channel.go`. -/
def newChannel (name : String) : Channel :=
  ⟨"", name, []⟩

/-- The `for _, cl := range c.clients` loop of `Channel.SendMessage`'s
broadcast arm: send to every non-nil client, threading queue effects. -/
def sendAllClients (w : World) :
    List (String × Option Client) → Message → Option (World × List (String × Option Client))
  | [], _ => some (w, [])
  | (k, none) :: rest, message =>
    (sendAllClients w rest message).map fun r => (r.1, (k, none) :: r.2)
  | (k, some cl) :: rest, message =>
    match Client.SendMessage w cl message with
    | none => none
    | some (w', cl') =>
      (sendAllClients w' rest message).map fun r => (r.1, (k, some cl') :: r.2)

/-- `Channel.SendMessage(name, message)` from `channel.go`: non-empty
`name` delivers to that client only (looked up in the map; a present but
nil entry would be a nil-pointer panic); empty `name` sets `lastEventID`
from the message and delivers to every client. -/
def Channel.SendMessage (w : World) (c : Channel) (name : String) (message : Message) :
    Option (World × Channel) :=
  if name ≠ "" then
    match mapLookup c.clients name with
    | some (some cl) =>
      (Client.SendMessage w cl message).map fun r =>
        (r.1, { c with clients := mapInsert c.clients name (some r.2) })
    | some none => none
    | none => some (w, c)
  else
    (sendAllClients w c.clients message).map fun r =>
      (r.1, { c with lastEventID := message.id, clients := r.2 })

/-- `Channel.addClient(client)` from `channel.go`. -/
def Channel.addClient (c : Channel) (client : Client) : Channel :=
  { c with clients := mapInsert c.clients client.name (some client) }

/-- `Channel.removeClient(client)` from `channel.go`: store `nil` under
the client's key, close the client's queue (panic if already closed),
then delete the key. -/
def Channel.removeClient (w : World) (c : Channel) (client : Client) :
    Option (World × Channel) :=
  let withNil := mapInsert c.clients client.name none
  match closeQ w client.send with
  | none => none
  | some w' => some (w', { c with clients := mapErase withNil client.name })

/-- The `for _, client := range c.clients { c.removeClient(client) }` loop
of `Channel.Close`: closes every member's queue (a nil entry would be a
nil-pointer panic inside `removeClient`); the map ends up empty. -/
def closeAllClients (w : World) : List (String × Option Client) → Option World
  | [] => some w
  | (_, none) :: _ => none
  | (_, some cl) :: rest =>
    match closeQ w cl.send with
    | none => none
    | some w' => closeAllClients w' rest

/-- `Channel.Close()` from `channel.go`. -/
def Channel.Close (w : World) (c : Channel) : Option World :=
  closeAllClients w c.clients

/-- `Channel.ClientCount()` from `channel.go` (`len` of the Go map counts
nil-valued entries too). -/
def Channel.ClientCount (c : Channel) : Nat :=
  c.clients.length

/-- `Channel.LastEventID()` from `channel.go`. -/
def Channel.LastEventIDfn (c : Channel) : String :=
  c.lastEventID

/-! ## Server (`sse.go`; source term for the spec's Hub)

The dispatch goroutine's state is the `channels` map; the unexported
control channels are represented by the event type `ServerEvent` (one
constructor per `select` arm of `dispatch`).  `ctlClosed` records whether
the shutdown arm executed its four `close(...)` calls.  The `Options`
fields the core reads (`RetryInterval`, `Heartbeat`) are inlined. -/

structure Server where
  retryInterval : Int
  heartbeat : Bool
  channels : List (String × Channel)
  ctlClosed : Bool
deriving DecidableEq

/-- One constructor per `select` arm of `Server.dispatch` in `sse.go`:
`addClient`, `removeClient`, `closeChannel`, `shutdown`, and the 15-second
heartbeat timeout.  Broadcasts deliberately have no constructor:
`SendMessage` / `SendMessageToClient` are plain exported methods executed
on the calling goroutine, not requests marshalled into the loop. -/
inductive ServerEvent where
  | addClient (c : Client)
  | removeClient (c : Client)
  | closeChannel (name : String)
  | shutdown
  | heartbeatTick
deriving DecidableEq

/-- Outcome of one `dispatch` iteration: continue with new state, return
(loop terminated), block forever on a channel operation no other
goroutine can complete, or panic. -/
inductive StepRes where
  | ok (w : World) (s : Server)
  | stopped (w : World) (s : Server)
  | deadlock (w : World) (s : Server)
  | panicked
deriving DecidableEq

/-- `Server.SendMessageToClient(channel, client, message)` from `sse.go`:
empty channel name broadcasts to every channel; a named existing channel
receives alone; a named absent channel is only logged. -/
def Server.SendMessageToClient (w : World) (s : Server)
    (channel client : String) (message : Message) : Option (World × Server) :=
  if channel.length = 0 then
    (serverSendLoop w s.channels client message).map fun r =>
      (r.1, { s with channels := r.2 })
  else
    match mapLookup s.channels channel with
    | some ch =>
      (Channel.SendMessage w ch client message).map fun r =>
        (r.1, { s with channels := mapInsert s.channels channel r.2 })
    | none => some (w, s)
where
  /-- The `for _, ch := range s.channels` loop of the broadcast arm. -/
  serverSendLoop (w : World) :
      List (String × Channel) → String → Message → Option (World × List (String × Channel))
    | [], _, _ => some (w, [])
    | (n, ch) :: rest, client, message =>
      match Channel.SendMessage w ch client message with
      | none => none
      | some (w', ch') =>
        (serverSendLoop w' rest client message).map fun r => (r.1, (n, ch') :: r.2)

/-- `Server.SendMessage(channel, message)` from `sse.go`. -/
def Server.SendMessage (w : World) (s : Server) (channel : String) (message : Message) :
    Option (World × Server) :=
  Server.SendMessageToClient w s channel "" message

/-- `Server.HasChannel(name)` from `sse.go`. -/
def Server.HasChannel (s : Server) (name : String) : Bool :=
  (mapLookup s.channels name).isSome

/-- `Server.GetChannel(name)` from `sse.go`. -/
def Server.GetChannel (s : Server) (name : String) : Option Channel :=
  mapLookup s.channels name

/-- `Server.ClientCount()` from `sse.go`. -/
def Server.ClientCountFn (s : Server) : Nat :=
  (s.channels.map fun p => p.2.ClientCount).sum

/-- The heartbeat message literal `&Message{event: "heartbeat"}` built by
the timeout arm of `dispatch`. -/
def heartbeatMessage : Message :=
  ⟨"", "", "heartbeat", 0, 0⟩

/-- One iteration of `Server.dispatch` from `sse.go`, handling one event.

The `shutdown` arm runs `s.close()`, which sends every channel name into
`s.closeChannel`; that unbuffered channel's only receiver is this very
loop, which is executing the arm, so with a non-empty channel map the
first send blocks forever (`deadlock`).  With an empty map `s.close()`
sends nothing, the four control channels are closed and the loop returns
(`stopped`).

The timeout arm calls the broadcast path with empty channel and client
names and the heartbeat message literal (the call in the source passes
the two empty strings and the message, i.e. `SendMessageToClient`'s
argument list). -/
def dispatchStep (w : World) (s : Server) : ServerEvent → StepRes
  | .addClient c =>
    let ch := match mapLookup s.channels c.channel with
      | some ch => ch
      | none => newChannel c.channel
    .ok w { s with channels := mapInsert s.channels c.channel (ch.addClient c) }
  | .removeClient c =>
    match mapLookup s.channels c.channel with
    | none => .ok w s
    | some ch =>
      match Channel.removeClient w ch c with
      | none => .panicked
      | some (w', ch') =>
        if ch'.ClientCount = 0 then
          match Channel.Close w' ch' with
          | none => .panicked
          | some w'' => .ok w'' { s with channels := mapErase s.channels c.channel }
        else
          .ok w' { s with channels := mapInsert s.channels c.channel ch' }
  | .closeChannel name =>
    match mapLookup s.channels name with
    | none => .ok w s
    | some ch =>
      match Channel.Close w ch with
      | none => .panicked
      | some w' => .ok w' { s with channels := mapErase s.channels name }
  | .shutdown =>
    match s.channels with
    | [] => .stopped w { s with ctlClosed := true }
    | _ :: _ => .deadlock w s
  | .heartbeatTick =>
    if s.heartbeat then
      match Server.SendMessageToClient w s "" "" heartbeatMessage with
      | none => .panicked
      | some (w', s') => .ok w' s'
    else
      .ok w s

/-- The dispatch loop run on a list of queued events, one event per
iteration, in order. -/
def runDispatch (w : World) (s : Server) : List ServerEvent → StepRes
  | [] => .ok w s
  | e :: es =>
    match dispatchStep w s e with
    | .ok w' s' => runDispatch w' s' es
    | r => r

/-- The `for msg := range c.send` body of `ServeHTTP` in `sse.go`: each
drained message has `msg.retry` overwritten with the configured
`RetryInterval` immediately before it is serialized onto the wire. -/
def serveDrainOutput (retryInterval : Int) (msgs : List Message) : String :=
  match msgs with
  | [] => ""
  | msg :: rest =>
    Message.render { msg with retry := retryInterval } ++ serveDrainOutput retryInterval rest

/-! ## Observable descriptions of delivery

These definitions restate, purely, what the delivery code does to a
client, a channel and the queues; the lemmas below prove that the
source-translated functions agree with them. -/

/-- State of one client after `Client.SendMessage`: `lastEventID` is
updated exactly when the version filter passes. -/
def clientAfter (m : Message) (c : Client) : Client :=
  if m.version ≤ c.version then { c with lastEventID := m.id } else c

/-- State of one queue after a message is pushed into it. -/
def pushSt (m : Message) (st : QState) : QState :=
  ⟨st.msgs ++ [m], st.closed⟩

/-- The queue identifiers of all clients bound in a client map. -/
def sendIds (cls : List (String × Option Client)) : List Nat :=
  cls.filterMap fun p => p.2.map fun c => c.send

/-- The queue identifiers of the clients that pass the version filter for
message `m`. -/
def okSendIds (m : Message) (cls : List (String × Option Client)) : List Nat :=
  cls.filterMap fun p => p.2.bind fun c =>
    if m.version ≤ c.version then some c.send else none

/-- Every entry of the client map is a non-nil client with an open queue. -/
def allOpen (w : World) (cls : List (String × Option Client)) : Prop :=
  ∀ p ∈ cls, ∃ c, p.2 = some c ∧ qOpen w c.send = true

theorem okSendIds_subset (m : Message) (cls : List (String × Option Client)) (q : Nat)
    (h : q ∈ okSendIds m cls) : q ∈ sendIds cls := by
  induction cls with
  | nil => simp [okSendIds] at h
  | cons p rest ih =>
    obtain ⟨k, oc⟩ := p
    cases oc with
    | none =>
      simp only [okSendIds, List.filterMap_cons, Option.none_bind] at h
      simpa [sendIds, List.filterMap_cons] using ih h
    | some c =>
      by_cases hv : m.version ≤ c.version
      · simp only [okSendIds, List.filterMap_cons, Option.some_bind, if_pos hv,
          List.mem_cons] at h
        rcases h with h | h
        · simp [sendIds, List.filterMap_cons, h]
        · simpa [sendIds, List.filterMap_cons] using Or.inr (ih h)
      · simp only [okSendIds, List.filterMap_cons, Option.some_bind, if_neg hv] at h
        simpa [sendIds, List.filterMap_cons] using Or.inr (ih h)

theorem qOpen_of_lookup_eq (w w' : World) (q : Nat)
    (h : mapLookup w' q = mapLookup w q) (ho : qOpen w q = true) : qOpen w' q = true := by
  unfold qOpen at ho ⊢
  rw [h]
  exact ho

/-- `Client.SendMessage` when the version filter passes and the queue is
open: the queue gains the message and `lastEventID` is updated. -/
theorem clientSM_deliver (w : World) (c : Client) (m : Message) (st : QState)
    (hv : m.version ≤ c.version) (hq : mapLookup w c.send = some st)
    (hopen : st.closed = false) :
    Client.SendMessage w c m =
      some (mapInsert w c.send (pushSt m st), { c with lastEventID := m.id }) := by
  unfold Client.SendMessage pushQ
  rw [if_pos hv, hq]
  simp [hopen, pushSt]

/-- `Client.SendMessage` when the version filter fails: nothing changes
and no error is reported. -/
theorem clientSM_drop (w : World) (c : Client) (m : Message)
    (hv : ¬m.version ≤ c.version) :
    Client.SendMessage w c m = some (w, c) := by
  unfold Client.SendMessage
  rw [if_neg hv]

/-- Full characterization of the broadcast arm of `Channel.SendMessage`:
under a well-formed world, all-open distinct queues, the loop succeeds,
every client's state becomes `clientAfter`, exactly the version-passing
clients' queues gain the message, and every other queue is untouched. -/
theorem sendAllClients_spec (m : Message) :
    ∀ (cls : List (String × Option Client)) (w : World),
      worldWF w → allOpen w cls → (sendIds cls).Nodup →
      ∃ w', sendAllClients w cls m =
          some (w', cls.map fun p => (p.1, p.2.map (clientAfter m))) ∧
        worldWF w' ∧
        (∀ q, q ∉ okSendIds m cls → mapLookup w' q = mapLookup w q) ∧
        (∀ q, q ∈ okSendIds m cls → mapLookup w' q = (mapLookup w q).map (pushSt m)) := by
  intro cls
  induction cls with
  | nil =>
    intro w hwf _ _
    exact ⟨w, rfl, hwf, fun q _ => rfl, fun q hq => by simp [okSendIds] at hq⟩
  | cons p rest ih =>
    intro w hwf hopen hnd
    obtain ⟨k, oc⟩ := p
    obtain ⟨c, hoc, hcq⟩ := hopen (k, oc) (List.mem_cons_self _ _)
    simp only at hoc
    subst hoc
    have hcons : sendIds ((k, some c) :: rest) = c.send :: sendIds rest := by
      simp [sendIds, List.filterMap_cons]
    rw [hcons, List.nodup_cons] at hnd
    have hnd' : (sendIds rest).Nodup := hnd.2
    have hcnotin : c.send ∉ sendIds rest := hnd.1
    by_cases hv : m.version ≤ c.version
    · obtain ⟨st, hst, hstopen⟩ : ∃ st, mapLookup w c.send = some st ∧ st.closed = false := by
        unfold qOpen at hcq
        cases hq : mapLookup w c.send with
        | none => rw [hq] at hcq; simp at hcq
        | some st =>
          rw [hq] at hcq
          exact ⟨st, rfl, by simpa using hcq⟩
      have hsm := clientSM_deliver w c m st hv hst hstopen
      set w₁ := mapInsert w c.send (pushSt m st) with hw₁
      have hwf₁ : worldWF w₁ := keys_mapInsert_nodup w c.send (pushSt m st) hwf
      have hpres : ∀ q, q ≠ c.send → mapLookup w₁ q = mapLookup w q := by
        intro q hq
        exact mapLookup_mapInsert_ne w c.send q (pushSt m st) hq
      have hopen₁ : allOpen w₁ rest := by
        intro p hp
        obtain ⟨c', hc', hcq'⟩ := hopen p (List.mem_cons_of_mem _ hp)
        refine ⟨c', hc', ?_⟩
        have hmem : c'.send ∈ sendIds rest := by
          simp only [sendIds, List.mem_filterMap]
          exact ⟨p, hp, by rw [hc']; rfl⟩
        have hne : c'.send ≠ c.send := fun he => hcnotin (he ▸ hmem)
        exact qOpen_of_lookup_eq w w₁ c'.send (hpres c'.send hne) hcq'
      obtain ⟨w', hrun, hwf', hframe, hpush⟩ := ih w₁ hwf₁ hopen₁ hnd'
      refine ⟨w', ?_, hwf', ?_, ?_⟩
      · simp only [sendAllClients, hsm, ← hw₁, hrun, Option.map_some]
        simp [clientAfter, hv]
      · intro q hq
        have hok : okSendIds m ((k, some c) :: rest) = c.send :: okSendIds m rest := by
          simp [okSendIds, List.filterMap_cons, hv]
        rw [hok] at hq
        simp only [List.mem_cons, not_or] at hq
        rw [hframe q hq.2]
        exact hpres q hq.1
      · intro q hq
        have hok : okSendIds m ((k, some c) :: rest) = c.send :: okSendIds m rest := by
          simp [okSendIds, List.filterMap_cons, hv]
        rw [hok] at hq
        rcases List.mem_cons.1 hq with hq | hq
        · subst hq
          have hnotok : c.send ∉ okSendIds m rest :=
            fun hmem => hcnotin (okSendIds_subset m rest c.send hmem)
          rw [hframe c.send hnotok, hw₁, mapLookup_mapInsert_self, hst]
          rfl
        · have hne : q ≠ c.send := by
            intro he
            exact hcnotin (he ▸ okSendIds_subset m rest q hq)
          rw [hpush q hq, hpres q hne]
    · have hsm := clientSM_drop w c m hv
      obtain ⟨w', hrun, hwf', hframe, hpush⟩ := ih w hwf
        (fun p hp => hopen p (List.mem_cons_of_mem _ hp)) hnd'
      refine ⟨w', ?_, hwf', ?_, ?_⟩
      · simp only [sendAllClients, hsm, hrun, Option.map_some]
        simp [clientAfter, hv]
      · intro q hq
        have hok : okSendIds m ((k, some c) :: rest) = okSendIds m rest := by
          simp [okSendIds, List.filterMap_cons, hv]
        rw [hok] at hq
        exact hframe q hq
      · intro q hq
        have hok : okSendIds m ((k, some c) :: rest) = okSendIds m rest := by
          simp [okSendIds, List.filterMap_cons, hv]
        rw [hok] at hq
        exact hpush q hq

/-- The queue identifiers that a `Channel.SendMessage(client, m)` call
pushes into: all version-passing clients for an empty identity, at most
the named client otherwise. -/
def chanOkIds (m : Message) (client : String) (cls : List (String × Option Client)) :
    List Nat :=
  if client = "" then okSendIds m cls
  else
    match mapLookup cls client with
    | some (some c) => if m.version ≤ c.version then [c.send] else []
    | _ => []

/-- State of a channel after `Channel.SendMessage(client, m)`: the
broadcast arm updates `lastEventID` and every client; the named arm
updates at most the named client and leaves `lastEventID` alone. -/
def chanAfter (client : String) (m : Message) (ch : Channel) : Channel :=
  if client = "" then
    { ch with lastEventID := m.id,
              clients := ch.clients.map fun p => (p.1, p.2.map (clientAfter m)) }
  else
    match mapLookup ch.clients client with
    | some (some c) =>
      { ch with clients := mapInsert ch.clients client (some (clientAfter m c)) }
    | _ => ch

theorem chanOkIds_subset (m : Message) (client : String)
    (cls : List (String × Option Client)) (q : Nat)
    (h : q ∈ chanOkIds m client cls) : q ∈ sendIds cls := by
  unfold chanOkIds at h
  by_cases hc : client = ""
  · rw [if_pos hc] at h
    exact okSendIds_subset m cls q h
  · rw [if_neg hc] at h
    cases hl : mapLookup cls client with
    | none => rw [hl] at h; simp at h
    | some oc =>
      cases oc with
      | none => rw [hl] at h; simp at h
      | some c =>
        simp only [hl] at h
        by_cases hv : m.version ≤ c.version
        · simp only [if_pos hv, List.mem_singleton] at h
          subst h
          simp only [sendIds, List.mem_filterMap]
          exact ⟨(client, some c), mapLookup_mem cls client (some c) hl, rfl⟩
        · simp only [if_neg hv] at h
          simp at h

/-- Full characterization of `Channel.SendMessage`: the channel becomes
`chanAfter`, exactly the queues in `chanOkIds` gain the message, and every
other queue is untouched. -/
theorem chanSend_spec (m : Message) (client : String) (ch : Channel) (w : World)
    (hwf : worldWF w) (hopen : allOpen w ch.clients) (hnd : (sendIds ch.clients).Nodup) :
    ∃ w', Channel.SendMessage w ch client m = some (w', chanAfter client m ch) ∧
      worldWF w' ∧
      (∀ q, q ∉ chanOkIds m client ch.clients → mapLookup w' q = mapLookup w q) ∧
      (∀ q, q ∈ chanOkIds m client ch.clients →
        mapLookup w' q = (mapLookup w q).map (pushSt m)) := by
  by_cases hc : client = ""
  · subst hc
    obtain ⟨w', hrun, hwf', hframe, hpush⟩ := sendAllClients_spec m ch.clients w hwf hopen hnd
    refine ⟨w', ?_, hwf', ?_, ?_⟩
    · unfold Channel.SendMessage
      simp only [ne_eq, not_true_eq_false, if_false, hrun, Option.map_some]
      unfold chanAfter
      simp
    · intro q hq
      unfold chanOkIds at hq
      simp only [if_pos rfl] at hq
      exact hframe q hq
    · intro q hq
      unfold chanOkIds at hq
      simp only [if_pos rfl] at hq
      exact hpush q hq
  · cases hl : mapLookup ch.clients client with
    | none =>
      refine ⟨w, ?_, hwf, fun q _ => rfl, ?_⟩
      · unfold Channel.SendMessage
        simp only [ne_eq, hc, not_false_eq_true, if_true, hl]
        unfold chanAfter
        simp [hc, hl]
      · intro q hq
        unfold chanOkIds at hq
        simp [hc, hl] at hq
    | some oc =>
      cases oc with
      | none =>
        exfalso
        obtain ⟨c, hc', _⟩ := hopen (client, none) (mapLookup_mem ch.clients client none hl)
        simp at hc'
      | some c =>
        obtain ⟨c', hc', hcq⟩ := hopen (client, some c) (mapLookup_mem ch.clients client (some c) hl)
        simp only [Option.some.injEq] at hc'
        subst hc'
        by_cases hv : m.version ≤ c.version
        · obtain ⟨st, hst, hstopen⟩ : ∃ st, mapLookup w c.send = some st ∧ st.closed = false := by
            unfold qOpen at hcq
            cases hq : mapLookup w c.send with
            | none => rw [hq] at hcq; simp at hcq
            | some st =>
              rw [hq] at hcq
              exact ⟨st, rfl, by simpa using hcq⟩
          have hsm := clientSM_deliver w c m st hv hst hstopen
          refine ⟨mapInsert w c.send (pushSt m st), ?_, ?_, ?_, ?_⟩
          · unfold Channel.SendMessage
            simp only [ne_eq, hc, not_false_eq_true, if_true, hl, hsm, Option.map_some]
            unfold chanAfter
            simp [hc, hl, clientAfter, hv]
          · exact keys_mapInsert_nodup w c.send (pushSt m st) hwf
          · intro q hq
            unfold chanOkIds at hq
            simp only [hc, if_false, hl, if_pos hv, List.mem_singleton] at hq
            exact mapLookup_mapInsert_ne w c.send q (pushSt m st) hq
          · intro q hq
            unfold chanOkIds at hq
            simp only [hc, if_false, hl, if_pos hv, List.mem_singleton] at hq
            subst hq
            rw [mapLookup_mapInsert_self, hst]
            rfl
        · have hsm := clientSM_drop w c m hv
          refine ⟨w, ?_, hwf, fun q _ => rfl, ?_⟩
          · unfold Channel.SendMessage chanAfter
            have hca : clientAfter m c = c := by simp [clientAfter, hv]
            simp [hc, hl, hsm, hca, mapInsert_of_lookup_eq ch.clients client (some c) hl]
          · intro q hq
            unfold chanOkIds at hq
            simp [hc, hl, hv] at hq

/-! ## Hub-level delivery characterization -/

/-- All queue identifiers reachable from a channel map. -/
def hubSendIds : List (String × Channel) → List Nat
  | [] => []
  | p :: rest => sendIds p.2.clients ++ hubSendIds rest

/-- The queue identifiers a hub-level broadcast pushes into. -/
def hubOkIds (m : Message) (client : String) : List (String × Channel) → List Nat
  | [] => []
  | p :: rest => chanOkIds m client p.2.clients ++ hubOkIds m client rest

/-- Every channel's client map is all-open in `w`. -/
def hubAllOpen (w : World) (chs : List (String × Channel)) : Prop :=
  ∀ p ∈ chs, allOpen w p.2.clients

theorem hubOkIds_subset (m : Message) (client : String) (chs : List (String × Channel))
    (q : Nat) (h : q ∈ hubOkIds m client chs) : q ∈ hubSendIds chs := by
  induction chs with
  | nil => simp [hubOkIds] at h
  | cons p rest ih =>
    simp only [hubOkIds, List.mem_append] at h
    simp only [hubSendIds, List.mem_append]
    rcases h with h | h
    · exact Or.inl (chanOkIds_subset m client p.2.clients q h)
    · exact Or.inr (ih h)

theorem mem_hubSendIds (chs : List (String × Channel)) (p : String × Channel)
    (hp : p ∈ chs) (q : Nat) (hq : q ∈ sendIds p.2.clients) : q ∈ hubSendIds chs := by
  induction chs with
  | nil => simp at hp
  | cons r rest ih =>
    rcases List.mem_cons.1 hp with hp | hp
    · subst hp
      simp [hubSendIds, List.mem_append, hq]
    · simp [hubSendIds, List.mem_append, ih hp]

/-- Full characterization of the `for _, ch := range s.channels` broadcast
loop: every channel becomes `chanAfter`, exactly the hub-wide resolved
queues gain the message, all other queues are untouched. -/
theorem serverSendLoop_spec (m : Message) (client : String) :
    ∀ (chs : List (String × Channel)) (w : World),
      worldWF w → hubAllOpen w chs → (hubSendIds chs).Nodup →
      ∃ w', Server.SendMessageToClient.serverSendLoop w chs client m =
          some (w', chs.map fun p => (p.1, chanAfter client m p.2)) ∧
        worldWF w' ∧
        (∀ q, q ∉ hubOkIds m client chs → mapLookup w' q = mapLookup w q) ∧
        (∀ q, q ∈ hubOkIds m client chs →
          mapLookup w' q = (mapLookup w q).map (pushSt m)) := by
  intro chs
  induction chs with
  | nil =>
    intro w hwf _ _
    exact ⟨w, rfl, hwf, fun q _ => rfl, fun q hq => by simp [hubOkIds] at hq⟩
  | cons p rest ih =>
    intro w hwf hopen hnd
    obtain ⟨n, ch⟩ := p
    simp only [hubSendIds, List.nodup_append] at hnd
    obtain ⟨hnd1, hnd2, hdisj⟩ := hnd
    obtain ⟨w₁, hrun1, hwf₁, hframe1, hpush1⟩ :=
      chanSend_spec m client ch w hwf (hopen (n, ch) (List.mem_cons_self _ _)) hnd1
    have hopen₁ : hubAllOpen w₁ rest := by
      intro p hp
      intro e he
      obtain ⟨c, hc, hcq⟩ := hopen p (List.mem_cons_of_mem _ hp) e he
      refine ⟨c, hc, ?_⟩
      have hmem : c.send ∈ sendIds p.2.clients := by
        simp only [sendIds, List.mem_filterMap]
        exact ⟨e, he, by rw [hc]; rfl⟩
      have hnot : c.send ∉ chanOkIds m client ch.clients := by
        intro hin
        exact hdisj (chanOkIds_subset m client ch.clients c.send hin)
          (mem_hubSendIds rest p hp c.send hmem)
      exact qOpen_of_lookup_eq w w₁ c.send (hframe1 c.send hnot) hcq
    obtain ⟨w', hrun2, hwf', hframe2, hpush2⟩ := ih w₁ hwf₁ hopen₁ hnd2
    refine ⟨w', ?_, hwf', ?_, ?_⟩
    · simp only [Server.SendMessageToClient.serverSendLoop, hrun1, hrun2, Option.map_some]
      rfl
    · intro q hq
      simp only [hubOkIds, List.mem_append, not_or] at hq
      rw [hframe2 q hq.2]
      exact hframe1 q hq.1
    · intro q hq
      simp only [hubOkIds, List.mem_append] at hq
      rcases hq with hq | hq
      · have hqs : q ∈ sendIds ch.clients := chanOkIds_subset m client ch.clients q hq
        have hnotr : q ∉ hubOkIds m client rest := by
          intro hin
          exact hdisj hqs (hubOkIds_subset m client rest q hin)
        rw [hframe2 q hnotr]
        exact hpush1 q hq
      · have hqs : q ∈ hubSendIds rest := hubOkIds_subset m client rest q hq
        have hnoth : q ∉ chanOkIds m client ch.clients := by
          intro hin
          exact hdisj (chanOkIds_subset m client ch.clients q hin) hqs
        rw [hpush2 q hq, hframe1 q hnoth]

theorem length_eq_zero_iff_empty (s : String) : s.length = 0 ↔ s = "" := by
  obtain ⟨cs⟩ := s
  cases cs with
  | nil => simp [String.length]
  | cons c rest =>
    constructor
    · intro h
      simp [String.length] at h
    · intro h
      have hd : (c :: rest) = ([] : List Char) := congrArg String.data h
      simp at hd

/-- Broadcast to a named, absent channel: logged only, no state change. -/
theorem serverSend_absent (w : World) (s : Server) (channel client : String) (m : Message)
    (hch : channel ≠ "") (hl : mapLookup s.channels channel = none) :
    Server.SendMessageToClient w s channel client m = some (w, s) := by
  unfold Server.SendMessageToClient
  have hlen : ¬channel.length = 0 := fun h => hch ((length_eq_zero_iff_empty channel).1 h)
  rw [if_neg hlen, hl]

/-- Broadcast to a named, present channel: that channel becomes
`chanAfter`, and exactly its resolved queues gain the message. -/
theorem serverSend_present (w : World) (s : Server) (channel client : String)
    (m : Message) (ch : Channel)
    (hch : channel ≠ "") (hl : mapLookup s.channels channel = some ch)
    (hwf : worldWF w) (hopen : allOpen w ch.clients)
    (hnd : (sendIds ch.clients).Nodup) :
    ∃ w', Server.SendMessageToClient w s channel client m =
        some (w', { s with channels := mapInsert s.channels channel (chanAfter client m ch) }) ∧
      worldWF w' ∧
      (∀ q, q ∉ chanOkIds m client ch.clients → mapLookup w' q = mapLookup w q) ∧
      (∀ q, q ∈ chanOkIds m client ch.clients →
        mapLookup w' q = (mapLookup w q).map (pushSt m)) := by
  obtain ⟨w', hrun, hwf', hframe, hpush⟩ := chanSend_spec m client ch w hwf hopen hnd
  refine ⟨w', ?_, hwf', hframe, hpush⟩
  unfold Server.SendMessageToClient
  have hlen : ¬channel.length = 0 := fun h => hch ((length_eq_zero_iff_empty channel).1 h)
  rw [if_neg hlen]
  simp only [hl, hrun]
  rfl

/-- Broadcast with empty channel name: every channel becomes `chanAfter`,
and exactly the hub-wide resolved queues gain the message. -/
theorem serverSend_all (w : World) (s : Server) (client : String) (m : Message)
    (hwf : worldWF w) (hopen : hubAllOpen w s.channels)
    (hnd : (hubSendIds s.channels).Nodup) :
    ∃ w', Server.SendMessageToClient w s "" client m =
        some (w', { s with channels := s.channels.map fun p => (p.1, chanAfter client m p.2) }) ∧
      worldWF w' ∧
      (∀ q, q ∉ hubOkIds m client s.channels → mapLookup w' q = mapLookup w q) ∧
      (∀ q, q ∈ hubOkIds m client s.channels →
        mapLookup w' q = (mapLookup w q).map (pushSt m)) := by
  obtain ⟨w', hrun, hwf', hframe, hpush⟩ := serverSendLoop_spec m client s.channels w hwf hopen hnd
  refine ⟨w', ?_, hwf', hframe, hpush⟩
  unfold Server.SendMessageToClient
  have h0 : ("" : String).length = 0 := rfl
  rw [if_pos h0, hrun]
  rfl

/-! ## Claim theorems -/

/-- C3: `Message` serialization emits, in fixed order, `id:` plus newline
iff the id is non-empty, `retry:` plus newline iff `retry > 0`, `event:`
plus newline iff the event is non-empty, one `data: <line>` plus newline
per payload line iff the data is non-empty (each embedded newline
rewritten so every resulting line carries its own `data: ` prefix), then
always exactly one trailing blank line — even when every field is empty —
and the given concrete Message serializes to exactly the given string. -/
theorem message_wire_format :
    (∀ m : Message,
      Message.render m =
        (if m.id.length > 0 then "id: " ++ m.id ++ "\n" else "") ++
        (if m.retry > 0 then "retry: " ++ toString m.retry ++ "\n" else "") ++
        (if m.event.length > 0 then "event: " ++ m.event ++ "\n" else "") ++
        (if m.data.length > 0 then specDataSection m.data else "") ++
        "\n") ∧
    Message.render ⟨"7", "a\nb", "update", 3000, 0⟩ =
      "id: 7\nretry: 3000\nevent: update\ndata: a\ndata: b\n\n" ∧
    Message.render ⟨"", "", "", 0, 0⟩ = "\n" := by
  refine ⟨?_, by decide, by decide⟩
  intro m
  unfold Message.render
  rw [dataSection_eq_spec]

/-- C2: `Client.SendMessage` pushes the message onto the subscriber's open
outbound queue and sets its `lastEventID` to the message id exactly when
`m.version <= c.version`; when the filter fails the message is silently
dropped: same world, same client, no error. -/
theorem client_version_filter :
    ∀ (w : World) (c : Client) (m : Message) (st : QState),
      mapLookup w c.send = some st → st.closed = false →
      (m.version ≤ c.version →
        Client.SendMessage w c m =
          some (mapInsert w c.send ⟨st.msgs ++ [m], false⟩,
                { c with lastEventID := m.id })) ∧
      (¬m.version ≤ c.version → Client.SendMessage w c m = some (w, c)) := by
  intro w c m st hst hopen
  constructor
  · intro hv
    have h := clientSM_deliver w c m st hv hst hopen
    rw [h]
    simp [pushSt, hopen]
  · intro hv
    exact clientSM_drop w c m hv

theorem client_version_filter_witness :
    Client.SendMessage [(0, ⟨[], false⟩)] ⟨"", "t", "a", 0, 5⟩ ⟨"i", "d", "e", 0, 3⟩ =
      some ([(0, ⟨[⟨"i", "d", "e", 0, 3⟩], false⟩)], ⟨"i", "t", "a", 0, 5⟩) ∧
    Client.SendMessage [(0, ⟨[], false⟩)] ⟨"", "t", "a", 0, 5⟩ ⟨"i", "d", "e", 0, 7⟩ =
      some ([(0, ⟨[], false⟩)], ⟨"", "t", "a", 0, 5⟩) := by
  constructor
  · rw [(client_version_filter [(0, ⟨[], false⟩)] ⟨"", "t", "a", 0, 5⟩
      ⟨"i", "d", "e", 0, 3⟩ ⟨[], false⟩ rfl rfl).1 (by decide)]
    rfl
  · rw [(client_version_filter [(0, ⟨[], false⟩)] ⟨"", "t", "a", 0, 5⟩
      ⟨"i", "d", "e", 0, 7⟩ ⟨[], false⟩ rfl rfl).2 (by decide)]

/-- A message with its construction-time retry hint discarded (used to
state that the drain loop ignores that field). -/
def eraseRetry (m : Message) : Message :=
  { m with retry := 0 }

theorem render_stamped_congr (ri : Int) (m₁ m₂ : Message)
    (h : eraseRetry m₁ = eraseRetry m₂) :
    Message.render { m₁ with retry := ri } = Message.render { m₂ with retry := ri } := by
  obtain ⟨i₁, d₁, e₁, r₁, v₁⟩ := m₁
  obtain ⟨i₂, d₂, e₂, r₂, v₂⟩ := m₂
  simp only [eraseRetry, Message.mk.injEq] at h
  obtain ⟨h1, h2, h3, -, h5⟩ := h
  subst h1
  subst h2
  subst h3
  rfl

/-- C8: the `ServeHTTP` drain loop overwrites each message's `retry` with
the configured `RetryInterval` immediately before serialization: the
serialized output per message is exactly the rendering of the message
stamped with the configured value, hence independent of the retry set at
construction. -/
theorem retry_stamping :
    (∀ (ri : Int) (m : Message),
        serveDrainOutput ri [m] = Message.render { m with retry := ri }) ∧
    (∀ (ri r : Int) (m : Message),
        serveDrainOutput ri [{ m with retry := r }] = serveDrainOutput ri [m]) ∧
    (∀ (ri : Int) (msgs₁ msgs₂ : List Message),
        msgs₁.map eraseRetry = msgs₂.map eraseRetry →
        serveDrainOutput ri msgs₁ = serveDrainOutput ri msgs₂) := by
  refine ⟨?_, ?_, ?_⟩
  · intro ri m
    simp [serveDrainOutput]
  · intro ri r m
    simp [serveDrainOutput]
  · intro ri msgs₁
    induction msgs₁ with
    | nil =>
      intro msgs₂ h
      cases msgs₂ with
      | nil => rfl
      | cons m r => simp at h
    | cons m₁ r₁ ih =>
      intro msgs₂ h
      cases msgs₂ with
      | nil => simp at h
      | cons m₂ r₂ =>
        simp only [List.map_cons, List.cons.injEq] at h
        simp only [serveDrainOutput]
        rw [render_stamped_congr ri m₁ m₂ h.1, ih r₂ h.2]

theorem retry_stamping_witness :
    serveDrainOutput 3000 [⟨"7", "a\nb", "update", 777, 0⟩] =
      Message.render ⟨"7", "a\nb", "update", 3000, 0⟩ ∧
    serveDrainOutput 3000 [⟨"7", "a\nb", "update", 777, 0⟩] =
      serveDrainOutput 3000 [⟨"7", "a\nb", "update", 42, 0⟩] := by
  constructor
  · exact retry_stamping.1 3000 ⟨"7", "a\nb", "update", 777, 0⟩
  · have h := retry_stamping.2.2 3000 [⟨"7", "a\nb", "update", 777, 0⟩]
      [⟨"7", "a\nb", "update", 42, 0⟩] (by decide)
    exact h

/-- C1: routing of `Broadcast(topicName, subscriberIdentity, m)`.
Empty topic name: the message is forwarded to every topic (each becomes
`chanAfter`, and exactly the hub-wide resolved subscriber queues gain the
message).  Non-empty, present topic name: only that topic is touched,
every other topic entry is unchanged.  Non-empty, absent topic name: no
state change at all.  Within a resolved topic: empty subscriber identity
sets the topic's `lastEventID` to `m.id` and applies the per-subscriber
delivery step (`clientAfter`, with the version filter of C2) to every
subscriber; a non-empty identity applies it to the named subscriber only,
leaves `lastEventID` unchanged, and is a no-op when that identity is
absent. -/
theorem broadcast_routing :
    (∀ (w : World) (s : Server) (chn cl : String) (m : Message),
      chn ≠ "" → mapLookup s.channels chn = none →
      Server.SendMessageToClient w s chn cl m = some (w, s)) ∧
    (∀ (w : World) (ch : Channel) (m : Message),
      worldWF w → allOpen w ch.clients → (sendIds ch.clients).Nodup →
      ∃ w', Channel.SendMessage w ch "" m =
          some (w', { ch with
                        lastEventID := m.id,
                        clients := ch.clients.map fun p => (p.1, p.2.map (clientAfter m)) }) ∧
        (∀ q, q ∈ okSendIds m ch.clients →
          mapLookup w' q = (mapLookup w q).map (pushSt m)) ∧
        (∀ q, q ∉ okSendIds m ch.clients → mapLookup w' q = mapLookup w q)) ∧
    (∀ (w : World) (ch : Channel) (cl : String) (m : Message) (c : Client),
      worldWF w → allOpen w ch.clients → (sendIds ch.clients).Nodup →
      cl ≠ "" → mapLookup ch.clients cl = some (some c) →
      ∃ w', Channel.SendMessage w ch cl m =
          some (w', { ch with clients := mapInsert ch.clients cl (some (clientAfter m c)) }) ∧
        (m.version ≤ c.version →
          mapLookup w' c.send = (mapLookup w c.send).map (pushSt m)) ∧
        (∀ q, q ≠ c.send ∨ ¬m.version ≤ c.version → mapLookup w' q = mapLookup w q)) ∧
    (∀ (w : World) (ch : Channel) (cl : String) (m : Message),
      cl ≠ "" → mapLookup ch.clients cl = none →
      Channel.SendMessage w ch cl m = some (w, ch)) ∧
    (∀ (w : World) (s : Server) (cl : String) (m : Message),
      worldWF w → hubAllOpen w s.channels → (hubSendIds s.channels).Nodup →
      ∃ w', Server.SendMessageToClient w s "" cl m =
          some (w', { s with channels := s.channels.map fun p => (p.1, chanAfter cl m p.2) }) ∧
        (∀ q, q ∈ hubOkIds m cl s.channels →
          mapLookup w' q = (mapLookup w q).map (pushSt m)) ∧
        (∀ q, q ∉ hubOkIds m cl s.channels → mapLookup w' q = mapLookup w q)) ∧
    (∀ (w : World) (s : Server) (chn cl : String) (m : Message) (ch : Channel),
      chn ≠ "" → mapLookup s.channels chn = some ch →
      worldWF w → allOpen w ch.clients → (sendIds ch.clients).Nodup →
      ∃ w', Server.SendMessageToClient w s chn cl m =
          some (w', { s with channels := mapInsert s.channels chn (chanAfter cl m ch) }) ∧
        (∀ n, n ≠ chn →
          mapLookup (mapInsert s.channels chn (chanAfter cl m ch)) n = mapLookup s.channels n) ∧
        (∀ q, q ∉ chanOkIds m cl ch.clients → mapLookup w' q = mapLookup w q)) := by
  refine ⟨?_, ?_, ?_, ?_, ?_, ?_⟩
  · intro w s chn cl m hch hl
    exact serverSend_absent w s chn cl m hch hl
  · intro w ch m hwf hopen hnd
    obtain ⟨w', hrun, hwf', hframe, hpush⟩ := chanSend_spec m "" ch w hwf hopen hnd
    refine ⟨w', ?_, ?_, ?_⟩
    · rw [hrun]
      unfold chanAfter
      simp
    · intro q hq
      apply hpush
      unfold chanOkIds
      simpa using hq
    · intro q hq
      apply hframe
      unfold chanOkIds
      simpa using hq
  · intro w ch cl m c hwf hopen hnd hcl hl
    obtain ⟨w', hrun, hwf', hframe, hpush⟩ := chanSend_spec m cl ch w hwf hopen hnd
    have hca : chanAfter cl m ch =
        { ch with clients := mapInsert ch.clients cl (some (clientAfter m c)) } := by
      unfold chanAfter
      simp [hcl, hl]
    refine ⟨w', by rw [hrun, hca], ?_, ?_⟩
    · intro hv
      apply hpush
      unfold chanOkIds
      simp [hcl, hl, hv]
    · intro q hq
      apply hframe
      unfold chanOkIds
      simp only [hcl, if_false, hl]
      by_cases hv : m.version ≤ c.version
      · rcases hq with hq | hq
        · simp [hv, hq]
        · exact absurd hv hq
      · simp [hv]
  · intro w ch cl m hcl hl
    unfold Channel.SendMessage
    simp [hcl, hl]
  · intro w s cl m hwf hopen hnd
    obtain ⟨w', hrun, hwf', hframe, hpush⟩ := serverSend_all w s cl m hwf hopen hnd
    exact ⟨w', hrun, hpush, hframe⟩
  · intro w s chn cl m ch hch hl hwf hopen hnd
    obtain ⟨w', hrun, hwf', hframe, hpush⟩ :=
      serverSend_present w s chn cl m ch hch hl hwf hopen hnd
    refine ⟨w', hrun, ?_, hframe⟩
    intro n hn
    exact mapLookup_mapInsert_ne s.channels chn n (chanAfter cl m ch) hn

/-! ## Decidable checkers and concrete example states for witnesses -/

/-- Boolean checker for `allOpen`. -/
def allOpenB (w : World) (cls : List (String × Option Client)) : Bool :=
  cls.all fun p =>
    match p.2 with
    | some c => qOpen w c.send
    | none => false

theorem allOpen_of_allOpenB (w : World) (cls : List (String × Option Client))
    (h : allOpenB w cls = true) : allOpen w cls := by
  intro p hp
  have hm := (List.all_eq_true.1 h) p hp
  cases hoc : p.2 with
  | none =>
    rw [hoc] at hm
    simp at hm
  | some c =>
    rw [hoc] at hm
    exact ⟨c, rfl, hm⟩

/-- Boolean checker for `hubAllOpen`. -/
def hubAllOpenB (w : World) (chs : List (String × Channel)) : Bool :=
  chs.all fun p => allOpenB w p.2.clients

theorem hubAllOpen_of_B (w : World) (chs : List (String × Channel))
    (h : hubAllOpenB w chs = true) : hubAllOpen w chs := by
  intro p hp
  exact allOpen_of_allOpenB w p.2.clients ((List.all_eq_true.1 h) p hp)

/-- Example world: two open, empty queues. -/
def wEx : World := [(0, ⟨[], false⟩), (1, ⟨[], false⟩)]

/-- Example subscriber on queue 0 in topic `news`. -/
def aliceEx : Client := ⟨"", "news", "alice", 0, 0⟩

/-- Example subscriber on queue 1 in topic `blog`. -/
def bobEx : Client := ⟨"", "blog", "bob", 1, 0⟩

/-- Example topic `news` containing `aliceEx`. -/
def newsEx : Channel := ⟨"", "news", [("alice", some aliceEx)]⟩

/-- Example topic `blog` containing `bobEx`. -/
def blogEx : Channel := ⟨"", "blog", [("bob", some bobEx)]⟩

/-- Example hub holding `newsEx` and `blogEx`. -/
def srvEx : Server := ⟨3000, false, [("news", newsEx), ("blog", blogEx)], false⟩

/-- Example broadcast message (version 0). -/
def msgEx : Message := ⟨"7", "x", "", 0, 0⟩

theorem broadcast_routing_witness :
    Server.SendMessageToClient wEx srvEx "nope" "" msgEx = some (wEx, srvEx) ∧
    (∃ w', Channel.SendMessage wEx newsEx "" msgEx =
        some (w', { newsEx with
                      lastEventID := msgEx.id,
                      clients := newsEx.clients.map fun p =>
                        (p.1, p.2.map (clientAfter msgEx)) }) ∧
      (∀ q, q ∈ okSendIds msgEx newsEx.clients →
        mapLookup w' q = (mapLookup wEx q).map (pushSt msgEx)) ∧
      (∀ q, q ∉ okSendIds msgEx newsEx.clients → mapLookup w' q = mapLookup wEx q)) ∧
    (∃ w', Channel.SendMessage wEx newsEx "alice" msgEx =
        some (w', { newsEx with
                      clients := mapInsert newsEx.clients "alice"
                        (some (clientAfter msgEx aliceEx)) }) ∧
      (msgEx.version ≤ aliceEx.version →
        mapLookup w' aliceEx.send = (mapLookup wEx aliceEx.send).map (pushSt msgEx)) ∧
      (∀ q, q ≠ aliceEx.send ∨ ¬msgEx.version ≤ aliceEx.version →
        mapLookup w' q = mapLookup wEx q)) ∧
    Channel.SendMessage wEx newsEx "carol" msgEx = some (wEx, newsEx) ∧
    (∃ w', Server.SendMessageToClient wEx srvEx "" "" msgEx =
        some (w', { srvEx with
                      channels := srvEx.channels.map fun p =>
                        (p.1, chanAfter "" msgEx p.2) }) ∧
      (∀ q, q ∈ hubOkIds msgEx "" srvEx.channels →
        mapLookup w' q = (mapLookup wEx q).map (pushSt msgEx)) ∧
      (∀ q, q ∉ hubOkIds msgEx "" srvEx.channels → mapLookup w' q = mapLookup wEx q)) ∧
    (∃ w', Server.SendMessageToClient wEx srvEx "news" "" msgEx =
        some (w', { srvEx with
                      channels := mapInsert srvEx.channels "news"
                        (chanAfter "" msgEx newsEx) }) ∧
      (∀ n, n ≠ "news" →
        mapLookup (mapInsert srvEx.channels "news" (chanAfter "" msgEx newsEx)) n =
          mapLookup srvEx.channels n) ∧
      (∀ q, q ∉ chanOkIds msgEx "" newsEx.clients → mapLookup w' q = mapLookup wEx q)) := by
  refine ⟨?_, ?_, ?_, ?_, ?_, ?_⟩
  · exact broadcast_routing.1 wEx srvEx "nope" "" msgEx (by decide) (by decide)
  · exact broadcast_routing.2.1 wEx newsEx msgEx (by decide)
      (allOpen_of_allOpenB wEx newsEx.clients (by decide)) (by decide)
  · exact broadcast_routing.2.2.1 wEx newsEx "alice" msgEx aliceEx (by decide)
      (allOpen_of_allOpenB wEx newsEx.clients (by decide)) (by decide) (by decide) (by decide)
  · exact broadcast_routing.2.2.2.1 wEx newsEx "carol" msgEx (by decide) (by decide)
  · exact broadcast_routing.2.2.2.2.1 wEx srvEx "" msgEx (by decide)
      (hubAllOpen_of_B wEx srvEx.channels (by decide)) (by decide)
  · exact broadcast_routing.2.2.2.2.2 wEx srvEx "news" "" msgEx newsEx (by decide)
      (by decide) (by decide) (allOpen_of_allOpenB wEx newsEx.clients (by decide)) (by decide)

/-- Example hub with heartbeat mode enabled. -/
def hbSrvEx : Server := ⟨3000, true, [("news", newsEx), ("blog", blogEx)], false⟩

/-- C7: when heartbeat mode is enabled, a heartbeat tick of the control
loop broadcasts, along the normal broadcast path (empty topic name, empty
subscriber identity), the synthesized message with empty id, empty data
and the `heartbeat` event label, to all subscribers of all topics; with
heartbeat mode disabled the tick does nothing. -/
theorem heartbeat_tick_broadcast :
    heartbeatMessage.id = "" ∧ heartbeatMessage.data = "" ∧
    heartbeatMessage.event = "heartbeat" ∧
    (∀ (w : World) (s : Server),
      s.heartbeat = true →
      worldWF w → hubAllOpen w s.channels → (hubSendIds s.channels).Nodup →
      ∃ w', dispatchStep w s .heartbeatTick =
          .ok w' { s with channels := s.channels.map fun p =>
                    (p.1, chanAfter "" heartbeatMessage p.2) } ∧
        (∀ q, q ∈ hubOkIds heartbeatMessage "" s.channels →
          mapLookup w' q = (mapLookup w q).map (pushSt heartbeatMessage)) ∧
        (∀ q, q ∉ hubOkIds heartbeatMessage "" s.channels →
          mapLookup w' q = mapLookup w q)) ∧
    (∀ (w : World) (s : Server), s.heartbeat = false →
      dispatchStep w s .heartbeatTick = .ok w s) := by
  refine ⟨rfl, rfl, rfl, ?_, ?_⟩
  · intro w s hhb hwf hopen hnd
    obtain ⟨w', hrun, hwf', hframe, hpush⟩ :=
      serverSend_all w s "" heartbeatMessage hwf hopen hnd
    refine ⟨w', ?_, hpush, hframe⟩
    simp [dispatchStep, hhb, hrun]
  · intro w s hhb
    simp [dispatchStep, hhb]

theorem heartbeat_tick_broadcast_witness :
    (∃ w', dispatchStep wEx hbSrvEx .heartbeatTick =
        .ok w' { hbSrvEx with channels := hbSrvEx.channels.map fun p =>
                  (p.1, chanAfter "" heartbeatMessage p.2) } ∧
      (∀ q, q ∈ hubOkIds heartbeatMessage "" hbSrvEx.channels →
        mapLookup w' q = (mapLookup wEx q).map (pushSt heartbeatMessage)) ∧
      (∀ q, q ∉ hubOkIds heartbeatMessage "" hbSrvEx.channels →
        mapLookup w' q = mapLookup wEx q)) ∧
    dispatchStep wEx srvEx .heartbeatTick = .ok wEx srvEx := by
  constructor
  · exact heartbeat_tick_broadcast.2.2.2.1 wEx hbSrvEx rfl (by decide)
      (hubAllOpen_of_B wEx hbSrvEx.channels (by decide)) (by decide)
  · exact heartbeat_tick_broadcast.2.2.2.2 wEx srvEx rfl

/-! ## The no-empty-topic invariant -/

/-- Every topic in the hub's table has at least one subscriber entry. -/
abbrev goodHub (s : Server) : Prop :=
  ∀ p ∈ s.channels, 0 < p.2.ClientCount

theorem option_map_some_inj {α β : Type _} (f : α → β) (a : α) (b : β)
    (h : Option.map f (some a) = some b) : f a = b :=
  Option.some.inj h

theorem sendAllClients_some_length (m : Message) :
    ∀ (cls : List (String × Option Client)) (w w' : World)
      (cls' : List (String × Option Client)),
      sendAllClients w cls m = some (w', cls') → cls'.length = cls.length := by
  intro cls
  induction cls with
  | nil =>
    intro w w' cls' h
    have h' : some (w, ([] : List (String × Option Client))) = some (w', cls') := h
    obtain ⟨-, h2⟩ := Prod.mk.inj (Option.some.inj h')
    rw [← h2]
  | cons p rest ih =>
    intro w w' cls' h
    obtain ⟨k, oc⟩ := p
    cases oc with
    | none =>
      simp only [sendAllClients] at h
      cases hr : sendAllClients w rest m with
      | none => rw [hr] at h; exact absurd h (by simp)
      | some r =>
        rw [hr] at h
        have h3 := option_map_some_inj _ r _ h
        obtain ⟨-, h2⟩ := Prod.mk.inj h3
        rw [← h2]
        simp [ih w r.1 r.2 hr]
    | some c =>
      simp only [sendAllClients] at h
      cases hc : Client.SendMessage w c m with
      | none => rw [hc] at h; exact absurd h (by simp)
      | some r1 =>
        obtain ⟨w1, c1⟩ := r1
        simp only [hc] at h
        cases hr : sendAllClients w1 rest m with
        | none => rw [hr] at h; exact absurd h (by simp)
        | some r =>
          rw [hr] at h
          have h3 := option_map_some_inj _ r _ h
          obtain ⟨-, h2⟩ := Prod.mk.inj h3
          rw [← h2]
          simp [ih w1 r.1 r.2 hr]

theorem chanSend_some_count (m : Message) (client : String) (ch ch' : Channel)
    (w w' : World) (h : Channel.SendMessage w ch client m = some (w', ch')) :
    ch'.ClientCount = ch.ClientCount := by
  unfold Channel.SendMessage at h
  by_cases hc : client = ""
  · simp only [hc, ne_eq, not_true_eq_false, if_false] at h
    cases hr : sendAllClients w ch.clients m with
    | none => rw [hr] at h; exact absurd h (by simp)
    | some r =>
      rw [hr] at h
      have h3 := option_map_some_inj _ r _ h
      obtain ⟨-, h2⟩ := Prod.mk.inj h3
      rw [← h2]
      unfold Channel.ClientCount
      simp [sendAllClients_some_length m ch.clients w r.1 r.2 hr]
  · simp only [ne_eq, hc, not_false_eq_true, if_true] at h
    cases hl : mapLookup ch.clients client with
    | none =>
      rw [hl] at h
      obtain ⟨-, h2⟩ := Prod.mk.inj (Option.some.inj h)
      rw [← h2]
    | some oc =>
      cases oc with
      | none => rw [hl] at h; exact absurd h (by simp)
      | some c =>
        simp only [hl] at h
        cases hsm : Client.SendMessage w c m with
        | none => rw [hsm] at h; exact absurd h (by simp)
        | some r =>
          rw [hsm] at h
          have h3 := option_map_some_inj _ r _ h
          obtain ⟨-, h2⟩ := Prod.mk.inj h3
          rw [← h2]
          unfold Channel.ClientCount
          simp only
          exact length_mapInsert_of_lookup ch.clients client (some r.2) (some c) hl

theorem serverSendLoop_some_good (m : Message) (client : String) :
    ∀ (chs : List (String × Channel)) (w w' : World) (chs' : List (String × Channel)),
      (∀ p ∈ chs, 0 < p.2.ClientCount) →
      Server.SendMessageToClient.serverSendLoop w chs client m = some (w', chs') →
      ∀ p ∈ chs', 0 < p.2.ClientCount := by
  intro chs
  induction chs with
  | nil =>
    intro w w' chs' hg h
    have h' : some (w, ([] : List (String × Channel))) = some (w', chs') := h
    obtain ⟨-, h2⟩ := Prod.mk.inj (Option.some.inj h')
    rw [← h2]
    simp
  | cons p rest ih =>
    intro w w' chs' hg h
    obtain ⟨n, ch⟩ := p
    simp only [Server.SendMessageToClient.serverSendLoop] at h
    cases hc : Channel.SendMessage w ch client m with
    | none => rw [hc] at h; exact absurd h (by simp)
    | some r1 =>
      obtain ⟨w1, ch1⟩ := r1
      simp only [hc] at h
      cases hr : Server.SendMessageToClient.serverSendLoop w1 rest client m with
      | none => rw [hr] at h; exact absurd h (by simp)
      | some r =>
        rw [hr] at h
        have h3 := option_map_some_inj _ r _ h
        obtain ⟨-, h2⟩ := Prod.mk.inj h3
        rw [← h2]
        intro q hq
        rcases List.mem_cons.1 hq with hq | hq
        · subst hq
          simp only
          rw [chanSend_some_count m client ch ch1 w w1 hc]
          exact hg (n, ch) (List.mem_cons_self _ _)
        · exact ih w1 r.1 r.2 (fun p hp => hg p (List.mem_cons_of_mem _ hp)) hr q hq

theorem broadcast_preserves_good (w : World) (s : Server) (chn cl : String)
    (m : Message) (w' : World) (s' : Server) (hg : goodHub s)
    (h : Server.SendMessageToClient w s chn cl m = some (w', s')) : goodHub s' := by
  unfold Server.SendMessageToClient at h
  by_cases hlen : chn.length = 0
  · rw [if_pos hlen] at h
    cases hr : Server.SendMessageToClient.serverSendLoop w s.channels cl m with
    | none => rw [hr] at h; exact absurd h (by simp)
    | some r =>
      rw [hr] at h
      have h3 := option_map_some_inj _ r _ h
      obtain ⟨-, h2⟩ := Prod.mk.inj h3
      rw [← h2]
      intro p hp
      exact serverSendLoop_some_good m cl s.channels w r.1 r.2 hg hr p hp
  · rw [if_neg hlen] at h
    cases hl : mapLookup s.channels chn with
    | none =>
      rw [hl] at h
      obtain ⟨-, h2⟩ := Prod.mk.inj (Option.some.inj h)
      rw [← h2]
      exact hg
    | some ch =>
      simp only [hl] at h
      cases hc : Channel.SendMessage w ch cl m with
      | none => rw [hc] at h; exact absurd h (by simp)
      | some r =>
        rw [hc] at h
        have h3 := option_map_some_inj _ r _ h
        obtain ⟨-, h2⟩ := Prod.mk.inj h3
        rw [← h2]
        intro p hp
        rcases mem_mapInsert s.channels chn r.2 p hp with hp' | hp'
        · rw [hp']
          simp only
          rw [chanSend_some_count m cl ch r.2 w r.1 hc]
          exact hg (chn, ch) (mapLookup_mem s.channels chn ch hl)
        · exact hg p hp'

/-- C4: no topic with zero subscribers survives any hub operation: every
dispatch-loop step and every broadcast preserves the all-topics-non-empty
invariant, and removing a topic's last subscriber deletes the topic in the
same step, after which `HasChannel` is false and a broadcast to that topic
name is a no-op. -/
theorem no_empty_topic_invariant :
    (∀ (w : World) (s : Server) (e : ServerEvent) (w' : World) (s' : Server),
      goodHub s →
      (dispatchStep w s e = .ok w' s' ∨ dispatchStep w s e = .stopped w' s') →
      goodHub s') ∧
    (∀ (w : World) (s : Server) (chn cl : String) (m : Message) (w' : World)
      (s' : Server),
      goodHub s → Server.SendMessageToClient w s chn cl m = some (w', s') →
      goodHub s') ∧
    (∀ (w : World) (s : Server) (c : Client) (ch : Channel) (d : Client),
      (s.channels.map Prod.fst).Nodup →
      mapLookup s.channels c.channel = some ch →
      ch.clients = [(c.name, some d)] →
      qOpen w c.send = true →
      c.channel ≠ "" →
      ∃ w', dispatchStep w s (.removeClient c) =
          .ok w' { s with channels := mapErase s.channels c.channel } ∧
        Server.HasChannel { s with channels := mapErase s.channels c.channel }
          c.channel = false ∧
        (∀ cl m, Server.SendMessageToClient w'
            { s with channels := mapErase s.channels c.channel } c.channel cl m =
          some (w', { s with channels := mapErase s.channels c.channel }))) := by
  refine ⟨?_, ?_, ?_⟩
  · intro w s e w' s' hg hstep
    cases e with
    | addClient c =>
      cases hl : mapLookup s.channels c.channel with
      | none =>
        have hd : dispatchStep w s (.addClient c) =
            .ok w { s with
              channels := mapInsert s.channels c.channel ((newChannel c.channel).addClient c) } := by
          simp [dispatchStep, hl]
        rw [hd] at hstep
        rcases hstep with h | h
        · injection h with h1 h2
          rw [← h2]
          intro p hp
          rcases mem_mapInsert s.channels c.channel _ p hp with hp' | hp'
          · rw [hp']
            simp only [Channel.addClient, Channel.ClientCount]
            exact List.length_pos.2 (mapInsert_ne_nil _ _ _)
          · exact hg p hp'
        · exact absurd h (by simp)
      | some ch =>
        have hd : dispatchStep w s (.addClient c) =
            .ok w { s with channels := mapInsert s.channels c.channel (ch.addClient c) } := by
          simp [dispatchStep, hl]
        rw [hd] at hstep
        rcases hstep with h | h
        · injection h with h1 h2
          rw [← h2]
          intro p hp
          rcases mem_mapInsert s.channels c.channel _ p hp with hp' | hp'
          · rw [hp']
            simp only [Channel.addClient, Channel.ClientCount]
            exact List.length_pos.2 (mapInsert_ne_nil _ _ _)
          · exact hg p hp'
        · exact absurd h (by simp)
    | removeClient c =>
      cases hl : mapLookup s.channels c.channel with
      | none =>
        have hd : dispatchStep w s (.removeClient c) = .ok w s := by
          simp [dispatchStep, hl]
        rw [hd] at hstep
        rcases hstep with h | h
        · injection h with h1 h2
          rw [← h2]
          exact hg
        · exact absurd h (by simp)
      | some ch =>
        cases hrc : Channel.removeClient w ch c with
        | none =>
          have hd : dispatchStep w s (.removeClient c) = .panicked := by
            simp [dispatchStep, hl, hrc]
          rw [hd] at hstep
          rcases hstep with h | h <;> exact absurd h (by simp)
        | some r =>
          obtain ⟨w1, ch1⟩ := r
          by_cases hcnt : ch1.ClientCount = 0
          · cases hcl : Channel.Close w1 ch1 with
            | none =>
              have hd : dispatchStep w s (.removeClient c) = .panicked := by
                simp [dispatchStep, hl, hrc, hcnt, hcl]
              rw [hd] at hstep
              rcases hstep with h | h <;> exact absurd h (by simp)
            | some w2 =>
              have hd : dispatchStep w s (.removeClient c) =
                  .ok w2 { s with channels := mapErase s.channels c.channel } := by
                simp [dispatchStep, hl, hrc, hcnt, hcl]
              rw [hd] at hstep
              rcases hstep with h | h
              · injection h with h1 h2
                rw [← h2]
                intro p hp
                exact hg p (mem_mapErase s.channels c.channel p hp)
              · exact absurd h (by simp)
          · have hd : dispatchStep w s (.removeClient c) =
                .ok w1 { s with channels := mapInsert s.channels c.channel ch1 } := by
              simp [dispatchStep, hl, hrc, hcnt]
            rw [hd] at hstep
            rcases hstep with h | h
            · injection h with h1 h2
              rw [← h2]
              intro p hp
              rcases mem_mapInsert s.channels c.channel ch1 p hp with hp' | hp'
              · rw [hp']
                exact Nat.pos_of_ne_zero hcnt
              · exact hg p hp'
            · exact absurd h (by simp)
    | closeChannel name =>
      cases hl : mapLookup s.channels name with
      | none =>
        have hd : dispatchStep w s (.closeChannel name) = .ok w s := by
          simp [dispatchStep, hl]
        rw [hd] at hstep
        rcases hstep with h | h
        · injection h with h1 h2
          rw [← h2]
          exact hg
        · exact absurd h (by simp)
      | some ch =>
        cases hcl : Channel.Close w ch with
        | none =>
          have hd : dispatchStep w s (.closeChannel name) = .panicked := by
            simp [dispatchStep, hl, hcl]
          rw [hd] at hstep
          rcases hstep with h | h <;> exact absurd h (by simp)
        | some w1 =>
          have hd : dispatchStep w s (.closeChannel name) =
              .ok w1 { s with channels := mapErase s.channels name } := by
            simp [dispatchStep, hl, hcl]
          rw [hd] at hstep
          rcases hstep with h | h
          · injection h with h1 h2
            rw [← h2]
            intro p hp
            exact hg p (mem_mapErase s.channels name p hp)
          · exact absurd h (by simp)
    | shutdown =>
      cases hsc : s.channels with
      | nil =>
        have hd : dispatchStep w s .shutdown =
            .stopped w { s with ctlClosed := true } := by
          simp [dispatchStep, hsc]
        rw [hd] at hstep
        rcases hstep with h | h
        · exact absurd h (by simp)
        · injection h with h1 h2
          rw [← h2]
          intro p hp
          exact hg p hp
      | cons q rest =>
        have hd : dispatchStep w s .shutdown = .deadlock w s := by
          simp [dispatchStep, hsc]
        rw [hd] at hstep
        rcases hstep with h | h <;> exact absurd h (by simp)
    | heartbeatTick =>
      by_cases hhb : s.heartbeat
      · cases hsd : Server.SendMessageToClient w s "" "" heartbeatMessage with
        | none =>
          have hd : dispatchStep w s .heartbeatTick = .panicked := by
            simp [dispatchStep, hhb, hsd]
          rw [hd] at hstep
          rcases hstep with h | h <;> exact absurd h (by simp)
        | some r =>
          have hd : dispatchStep w s .heartbeatTick = .ok r.1 r.2 := by
            simp [dispatchStep, hhb, hsd]
          rw [hd] at hstep
          rcases hstep with h | h
          · injection h with h1 h2
            rw [← h2]
            exact broadcast_preserves_good w s "" "" heartbeatMessage r.1 r.2 hg hsd
          · exact absurd h (by simp)
      · have hd : dispatchStep w s .heartbeatTick = .ok w s := by
          simp [dispatchStep, hhb]
        rw [hd] at hstep
        rcases hstep with h | h
        · injection h with h1 h2
          rw [← h2]
          exact hg
        · exact absurd h (by simp)
  · intro w s chn cl m w' s' hg h
    exact broadcast_preserves_good w s chn cl m w' s' hg h
  · intro w s c ch d hnd hl hone hopen hchn
    obtain ⟨st, hst, hstopen⟩ : ∃ st, mapLookup w c.send = some st ∧ st.closed = false := by
      unfold qOpen at hopen
      cases hq : mapLookup w c.send with
      | none => rw [hq] at hopen; simp at hopen
      | some st =>
        rw [hq] at hopen
        exact ⟨st, rfl, by simpa using hopen⟩
    have hclose : closeQ w c.send = some (mapInsert w c.send ⟨st.msgs, true⟩) := by
      unfold closeQ
      simp [hst, hstopen]
    have hrc : Channel.removeClient w ch c =
        some (mapInsert w c.send ⟨st.msgs, true⟩, { ch with clients := [] }) := by
      unfold Channel.removeClient
      rw [hone]
      simp [hclose, mapInsert, mapErase]
    refine ⟨mapInsert w c.send ⟨st.msgs, true⟩, ?_, ?_, ?_⟩
    · have hcnt : Channel.ClientCount { ch with clients := ([] : List (String × Option Client)) } = 0 := rfl
      have hcl : Channel.Close (mapInsert w c.send ⟨st.msgs, true⟩)
          { ch with clients := ([] : List (String × Option Client)) } =
          some (mapInsert w c.send ⟨st.msgs, true⟩) := rfl
      simp [dispatchStep, hl, hrc, hcnt, hcl]
    · unfold Server.HasChannel
      simp only
      rw [mapLookup_mapErase_self s.channels c.channel hnd]
      rfl
    · intro cl m
      apply serverSend_absent
      · exact hchn
      · simp only
        exact mapLookup_mapErase_self s.channels c.channel hnd

/-- Example subscriber joining `news` on fresh queue 2. -/
def carolEx : Client := ⟨"", "news", "carol", 2, 0⟩

/-- Example hub holding only `newsEx` (single subscriber). -/
def remSrvEx : Server := ⟨3000, false, [("news", newsEx)], false⟩

theorem no_empty_topic_invariant_witness :
    goodHub { srvEx with
                channels := mapInsert srvEx.channels "news" (newsEx.addClient carolEx) } ∧
    goodHub { srvEx with
                channels := mapInsert srvEx.channels "news" (chanAfter "" msgEx newsEx) } ∧
    (∃ w', dispatchStep wEx remSrvEx (.removeClient aliceEx) =
        .ok w' { remSrvEx with channels := mapErase remSrvEx.channels "news" } ∧
      Server.HasChannel { remSrvEx with channels := mapErase remSrvEx.channels "news" }
        "news" = false ∧
      (∀ cl m, Server.SendMessageToClient w'
          { remSrvEx with channels := mapErase remSrvEx.channels "news" } "news" cl m =
        some (w', { remSrvEx with channels := mapErase remSrvEx.channels "news" }))) := by
  refine ⟨?_, ?_, ?_⟩
  · exact no_empty_topic_invariant.1 wEx srvEx (.addClient carolEx) wEx
      { srvEx with channels := mapInsert srvEx.channels "news" (newsEx.addClient carolEx) }
      (by decide) (Or.inl (by decide))
  · exact no_empty_topic_invariant.2.1 wEx srvEx "news" "" msgEx
      [(0, ⟨[msgEx], false⟩), (1, ⟨[], false⟩)]
      { srvEx with channels := mapInsert srvEx.channels "news" (chanAfter "" msgEx newsEx) }
      (by decide) (by decide)
  · exact no_empty_topic_invariant.2.2 wEx remSrvEx aliceEx newsEx aliceEx
      (by decide) (by decide) (by decide) (by decide) (by decide)

theorem mem_okSendIds (m : Message) (cls : List (String × Option Client))
    (k : String) (c : Client) (hm : (k, some c) ∈ cls) (hv : m.version ≤ c.version) :
    c.send ∈ okSendIds m cls := by
  simp only [okSendIds, List.mem_filterMap]
  exact ⟨(k, some c), hm, by simp [hv]⟩

/-- C10: registering a subscriber into a topic that already holds a
subscriber with the same identity (including the empty anonymous
identity) replaces the map entry: the registration step returns the very
same world (so the displaced subscriber's queue is not closed, nor touched
at all), the topic's subscriber count does not increase, the identity now
binds the new subscriber, and a subsequent broadcast into the topic pushes
onto the new subscriber's queue while leaving the displaced subscriber's
queue unchanged. -/
theorem duplicate_identity_replacement :
    ∀ (w : World) (s : Server) (c old : Client) (ch : Channel),
      mapLookup s.channels c.channel = some ch →
      mapLookup ch.clients c.name = some (some old) →
      dispatchStep w s (.addClient c) =
          .ok w { s with channels := mapInsert s.channels c.channel (ch.addClient c) } ∧
      (ch.addClient c).ClientCount = ch.ClientCount ∧
      mapLookup (ch.addClient c).clients c.name = some (some c) ∧
      (∀ m : Message,
        worldWF w → allOpen w (ch.addClient c).clients →
        (sendIds (ch.addClient c).clients).Nodup →
        old.send ∉ sendIds (ch.addClient c).clients →
        m.version ≤ c.version → c.channel ≠ "" →
        ∃ w', Server.SendMessageToClient w
            { s with channels := mapInsert s.channels c.channel (ch.addClient c) }
            c.channel "" m =
          some (w', { s with
                        channels := mapInsert
                          (mapInsert s.channels c.channel (ch.addClient c))
                          c.channel (chanAfter "" m (ch.addClient c)) }) ∧
          mapLookup w' c.send = (mapLookup w c.send).map (pushSt m) ∧
          mapLookup w' old.send = mapLookup w old.send) := by
  intro w s c old ch hl hcl
  refine ⟨by simp [dispatchStep, hl], ?_, ?_, ?_⟩
  · unfold Channel.addClient Channel.ClientCount
    simp only
    exact length_mapInsert_of_lookup ch.clients c.name (some c) (some old) hcl
  · unfold Channel.addClient
    simp only
    exact mapLookup_mapInsert_self ch.clients c.name (some c)
  · intro m hwf hopen hnd hold hv hchn
    obtain ⟨w', hrun, hwf', hframe, hpush⟩ :=
      serverSend_present w
        { s with channels := mapInsert s.channels c.channel (ch.addClient c) }
        c.channel "" m (ch.addClient c) hchn
        (by simp only; exact mapLookup_mapInsert_self s.channels c.channel (ch.addClient c))
        hwf hopen hnd
    refine ⟨w', hrun, ?_, ?_⟩
    · apply hpush
      unfold chanOkIds
      rw [if_pos rfl]
      apply mem_okSendIds m (ch.addClient c).clients c.name c ?_ hv
      exact mapLookup_mem _ _ _ (mapLookup_mapInsert_self ch.clients c.name (some c))
    · apply hframe
      intro hin
      exact hold (chanOkIds_subset m "" (ch.addClient c).clients old.send hin)

/-- Example anonymous subscriber (empty identity) on queue 0. -/
def anonOldEx : Client := ⟨"", "t", "", 0, 0⟩

/-- Second anonymous subscriber with the same empty identity, queue 1. -/
def anonNewEx : Client := ⟨"", "t", "", 1, 0⟩

/-- Example topic holding the first anonymous subscriber. -/
def anonChEx : Channel := ⟨"", "t", [("", some anonOldEx)]⟩

/-- Example hub holding `anonChEx`. -/
def anonSrvEx : Server := ⟨3000, false, [("t", anonChEx)], false⟩

theorem duplicate_identity_replacement_witness :
    dispatchStep wEx anonSrvEx (.addClient anonNewEx) =
        .ok wEx { anonSrvEx with
                    channels := mapInsert anonSrvEx.channels "t"
                      (anonChEx.addClient anonNewEx) } ∧
    (anonChEx.addClient anonNewEx).ClientCount = anonChEx.ClientCount ∧
    mapLookup (anonChEx.addClient anonNewEx).clients "" = some (some anonNewEx) ∧
    (∃ w', Server.SendMessageToClient wEx
        { anonSrvEx with
            channels := mapInsert anonSrvEx.channels "t" (anonChEx.addClient anonNewEx) }
        "t" "" msgEx =
      some (w', { anonSrvEx with
                    channels := mapInsert
                      (mapInsert anonSrvEx.channels "t" (anonChEx.addClient anonNewEx))
                      "t" (chanAfter "" msgEx (anonChEx.addClient anonNewEx)) }) ∧
      mapLookup w' anonNewEx.send = (mapLookup wEx anonNewEx.send).map (pushSt msgEx) ∧
      mapLookup w' anonOldEx.send = mapLookup wEx anonOldEx.send) := by
  have h := duplicate_identity_replacement wEx anonSrvEx anonNewEx anonOldEx anonChEx
    (by decide) (by decide)
  exact ⟨h.1, h.2.1, h.2.2.1, h.2.2.2 msgEx (by decide)
    (allOpen_of_allOpenB wEx (anonChEx.addClient anonNewEx).clients (by decide))
    (by decide) (by decide) (by decide) (by decide)⟩

/-- C5 counterexample: the hub holds topic `news` (subscriber bob); alice
was already removed from it, so her queue (id 0) is closed and her map
entry gone.  A second unsubscribe for alice finds the topic, calls
`Channel.removeClient`, and `close` of her already-closed queue is a Go
runtime panic — not a harmless no-op. -/
theorem unsubscribe_removed_panics_cex :
    dispatchStep [(0, ⟨[], true⟩), (1, ⟨[], false⟩)]
      ⟨3000, false, [("news", ⟨"", "news", [("bob", some ⟨"", "news", "bob", 1, 0⟩)]⟩)], false⟩
      (.removeClient ⟨"", "news", "alice", 0, 0⟩) = .panicked := by
  decide

/-- C5 amended: unsubscribing an already-removed subscriber is a harmless
logged no-op exactly when the subscriber's topic no longer exists; when
the topic still exists, the duplicate unsubscribe re-closes the
subscriber's already-closed outbound queue, which panics. -/
theorem unsubscribe_removed_amended :
    (∀ (w : World) (s : Server) (c : Client),
      mapLookup s.channels c.channel = none →
      dispatchStep w s (.removeClient c) = .ok w s) ∧
    (∀ (w : World) (s : Server) (c : Client) (ch : Channel) (st : QState),
      mapLookup s.channels c.channel = some ch →
      mapLookup w c.send = some st → st.closed = true →
      dispatchStep w s (.removeClient c) = .panicked) := by
  constructor
  · intro w s c hl
    simp [dispatchStep, hl]
  · intro w s c ch st hl hst hclosed
    have hq : closeQ w c.send = none := by
      unfold closeQ
      simp [hst, hclosed]
    have hrc : Channel.removeClient w ch c = none := by
      unfold Channel.removeClient
      simp [hq]
    simp [dispatchStep, hl, hrc]

theorem unsubscribe_removed_amended_witness :
    dispatchStep [(0, ⟨[], true⟩), (1, ⟨[], false⟩)]
      ⟨3000, false, [("blog", ⟨"", "blog", [("bob", some ⟨"", "blog", "bob", 1, 0⟩)]⟩)], false⟩
      (.removeClient ⟨"", "news", "alice", 0, 0⟩) =
      .ok [(0, ⟨[], true⟩), (1, ⟨[], false⟩)]
        ⟨3000, false, [("blog", ⟨"", "blog", [("bob", some ⟨"", "blog", "bob", 1, 0⟩)]⟩)], false⟩ ∧
    dispatchStep [(0, ⟨[], true⟩), (1, ⟨[], false⟩)]
      ⟨3000, false, [("news", ⟨"", "news", [("bob", some ⟨"", "news", "bob", 1, 0⟩)]⟩)], false⟩
      (.removeClient ⟨"", "news", "alice", 0, 0⟩) = .panicked := by
  constructor
  · exact unsubscribe_removed_amended.1 [(0, ⟨[], true⟩), (1, ⟨[], false⟩)]
      ⟨3000, false, [("blog", ⟨"", "blog", [("bob", some ⟨"", "blog", "bob", 1, 0⟩)]⟩)], false⟩
      ⟨"", "news", "alice", 0, 0⟩ (by decide)
  · exact unsubscribe_removed_amended.2 [(0, ⟨[], true⟩), (1, ⟨[], false⟩)]
      ⟨3000, false, [("news", ⟨"", "news", [("bob", some ⟨"", "news", "bob", 1, 0⟩)]⟩)], false⟩
      ⟨"", "news", "alice", 0, 0⟩
      ⟨"", "news", [("bob", some ⟨"", "news", "bob", 1, 0⟩)]⟩ ⟨[], true⟩
      (by decide) (by decide) (by decide)

/-- C6: the shutdown arm of `dispatch` calls `s.close()`, which sends
every channel name into the unbuffered `s.closeChannel` — whose only
receiver is the dispatch loop itself, currently executing this very arm.
With at least one topic present the first such send can never complete:
the loop blocks forever, no topic is closed, no subscriber queue is
closed, and the four control channels are never closed.  Only with an
empty topic table does shutdown close the control channels and stop the
loop as the spec describes. -/
theorem shutdown_selfsend_deadlock :
    dispatchStep wEx remSrvEx .shutdown = .deadlock wEx remSrvEx ∧
    dispatchStep wEx ⟨3000, false, [], false⟩ .shutdown =
      .stopped wEx ⟨3000, false, [], true⟩ := by
  exact ⟨by decide, by decide⟩

/-- A successful `removeClient` loop iteration leaves the world unchanged
(topic absent) or closes exactly the removed subscriber's queue. -/
theorem removeClient_world (w : World) (s : Server) (c : Client) (w' : World)
    (s' : Server) (h : dispatchStep w s (.removeClient c) = .ok w' s') :
    w' = w ∨ ∃ st, mapLookup w c.send = some st ∧ st.closed = false ∧
      w' = mapInsert w c.send ⟨st.msgs, true⟩ := by
  cases hl : mapLookup s.channels c.channel with
  | none =>
    have hd : dispatchStep w s (.removeClient c) = .ok w s := by
      simp [dispatchStep, hl]
    rw [hd] at h
    injection h with h1 h2
    exact Or.inl h1.symm
  | some ch =>
    cases hst : mapLookup w c.send with
    | none =>
      have hq : closeQ w c.send = none := by
        unfold closeQ
        simp [hst]
      have hrc : Channel.removeClient w ch c = none := by
        unfold Channel.removeClient
        simp [hq]
      have hd : dispatchStep w s (.removeClient c) = .panicked := by
        simp [dispatchStep, hl, hrc]
      rw [hd] at h
      exact absurd h (by simp)
    | some st =>
      by_cases hcl : st.closed = true
      · have hq : closeQ w c.send = none := by
          unfold closeQ
          simp [hst, hcl]
        have hrc : Channel.removeClient w ch c = none := by
          unfold Channel.removeClient
          simp [hq]
        have hd : dispatchStep w s (.removeClient c) = .panicked := by
          simp [dispatchStep, hl, hrc]
        rw [hd] at h
        exact absurd h (by simp)
      · have hopen : st.closed = false := by
          cases hx : st.closed
          · rfl
          · exact absurd hx hcl
        have hq : closeQ w c.send = some (mapInsert w c.send ⟨st.msgs, true⟩) := by
          unfold closeQ
          simp [hst, hopen]
        have hrc : Channel.removeClient w ch c =
            some (mapInsert w c.send ⟨st.msgs, true⟩,
              { ch with clients := mapErase (mapInsert ch.clients c.name none) c.name }) := by
          unfold Channel.removeClient
          simp [hq]
        set ch1 : Channel :=
          { ch with clients := mapErase (mapInsert ch.clients c.name none) c.name } with hch1
        by_cases hcnt : ch1.ClientCount = 0
        · have hnil : ch1.clients = [] := List.length_eq_zero.1 hcnt
          have hcc : Channel.Close (mapInsert w c.send ⟨st.msgs, true⟩) ch1 =
              some (mapInsert w c.send ⟨st.msgs, true⟩) := by
            unfold Channel.Close
            rw [hnil]
            rfl
          have hd : dispatchStep w s (.removeClient c) =
              .ok (mapInsert w c.send ⟨st.msgs, true⟩)
                { s with channels := mapErase s.channels c.channel } := by
            simp [dispatchStep, hl, hrc, hcnt, hcc]
          rw [hd] at h
          injection h with h1 h2
          exact Or.inr ⟨st, rfl, hopen, h1.symm⟩
        · have hd : dispatchStep w s (.removeClient c) =
              .ok (mapInsert w c.send ⟨st.msgs, true⟩)
                { s with channels := mapInsert s.channels c.channel ch1 } := by
            simp [dispatchStep, hl, hrc, hcnt]
          rw [hd] at h
          injection h with h1 h2
          exact Or.inr ⟨st, rfl, hopen, h1.symm⟩

/-- C9 counterexample: the exported broadcast entry point
(`SendMessageToClient`, translated from `sse.go` lines 114-129, a plain
method executed on the calling goroutine — the dispatch loop's `select`
has no broadcast arm, see `ServerEvent`) mutates the topic table and a
subscriber queue: topic `news`'s `lastEventID` and its subscriber's queue
and `lastEventID` all change, so topic state is written outside the
control loop. -/
theorem broadcast_outside_loop_cex :
    Server.SendMessageToClient wEx remSrvEx "news" "" msgEx =
      some ([(0, ⟨[msgEx], false⟩), (1, ⟨[], false⟩)],
            ⟨3000, false,
              [("news", ⟨"7", "news", [("alice", some ⟨"7", "news", "alice", 0, 0⟩)]⟩)],
              false⟩) ∧
    ([(0, ⟨[msgEx], false⟩), (1, ⟨[], false⟩)] : World) ≠ wEx ∧
    (⟨3000, false,
        [("news", ⟨"7", "news", [("alice", some ⟨"7", "news", "alice", 0, 0⟩)]⟩)],
        false⟩ : Server) ≠ remSrvEx := by
  refine ⟨by decide, by decide, by decide⟩

/-- C9 amended: subscribe, unsubscribe, topic-close, shutdown and
heartbeat-tick — the five arms of the `select`, i.e. the constructors of
`ServerEvent` — are each handled by exactly one iteration of the single
control loop, which processes queued events strictly one at a time, in
order (`runDispatch` composes sequentially).  Broadcast, however, is not a
loop event: no loop iteration from the example state can produce the state
that `SendMessageToClient` (a plain exported method run on the calling
goroutine) produces there, and that method does reach and mutate the topic
table and subscriber queues directly. -/
theorem dispatch_loop_ordering_amended :
    (∀ (w : World) (s : Server) (es₁ es₂ : List ServerEvent),
      runDispatch w s (es₁ ++ es₂) =
        match runDispatch w s es₁ with
        | .ok w' s' => runDispatch w' s' es₂
        | r => r) ∧
    (∀ ev : ServerEvent,
      dispatchStep wEx remSrvEx ev ≠
        .ok [(0, ⟨[msgEx], false⟩), (1, ⟨[], false⟩)]
          ⟨3000, false,
            [("news", ⟨"7", "news", [("alice", some ⟨"7", "news", "alice", 0, 0⟩)]⟩)],
            false⟩) ∧
    Server.SendMessageToClient wEx remSrvEx "news" "" msgEx =
      some ([(0, ⟨[msgEx], false⟩), (1, ⟨[], false⟩)],
            ⟨3000, false,
              [("news", ⟨"7", "news", [("alice", some ⟨"7", "news", "alice", 0, 0⟩)]⟩)],
              false⟩) := by
  refine ⟨?_, ?_, by decide⟩
  · intro w s es₁
    induction es₁ generalizing w s with
    | nil =>
      intro es₂
      simp [runDispatch]
    | cons e es ih =>
      intro es₂
      simp only [List.cons_append, runDispatch]
      cases hd : dispatchStep w s e with
      | ok w1 s1 => exact ih w1 s1 es₂
      | stopped w1 s1 => rfl
      | deadlock w1 s1 => rfl
      | panicked => rfl
  · intro ev h
    cases ev with
    | addClient c =>
      obtain ⟨X, hd⟩ : ∃ X, dispatchStep wEx remSrvEx (.addClient c) = .ok wEx X :=
        ⟨_, rfl⟩
      rw [hd] at h
      injection h with h1 h2
      exact absurd h1 (by decide)
    | removeClient c =>
      rcases removeClient_world wEx remSrvEx c _ _ h with h1 | ⟨st, hst, hopen, hw⟩
      · exact absurd h1 (by decide)
      · have hlk : mapLookup [(0, (⟨[msgEx], false⟩ : QState)), (1, ⟨[], false⟩)] c.send =
            some ⟨st.msgs, true⟩ := by
          rw [hw]
          exact mapLookup_mapInsert_self wEx c.send ⟨st.msgs, true⟩
        by_cases h0 : c.send = 0
        · rw [h0] at hlk
          simp [mapLookup] at hlk
        · by_cases h1 : c.send = 1
          · rw [h1] at hlk
            simp [mapLookup] at hlk
          · have hz : ¬(0 = c.send) := fun hh => h0 hh.symm
            have ho : ¬(1 = c.send) := fun hh => h1 hh.symm
            simp [mapLookup, hz, ho] at hlk
    | closeChannel name =>
      by_cases hn : name = "news"
      · subst hn
        exact absurd h (by decide)
      · have hne : ¬("news" = name) := fun hh => hn hh.symm
        have hln : mapLookup remSrvEx.channels name = (none : Option Channel) := by
          show mapLookup [("news", newsEx)] name = none
          simp [mapLookup, hne]
        have hd : dispatchStep wEx remSrvEx (.closeChannel name) = .ok wEx remSrvEx := by
          simp [dispatchStep, hln]
        rw [hd] at h
        injection h with h1 h2
        exact absurd h1 (by decide)
    | shutdown => exact absurd h (by decide)
    | heartbeatTick => exact absurd h (by decide)

theorem dispatch_loop_ordering_amended_witness :
    runDispatch wEx remSrvEx ([ServerEvent.closeChannel "news"] ++ [ServerEvent.shutdown]) =
      (match runDispatch wEx remSrvEx [ServerEvent.closeChannel "news"] with
        | .ok w' s' => runDispatch w' s' [ServerEvent.shutdown]
        | r => r) ∧
    dispatchStep wEx remSrvEx .shutdown ≠
      .ok [(0, ⟨[msgEx], false⟩), (1, ⟨[], false⟩)]
        ⟨3000, false,
          [("news", ⟨"7", "news", [("alice", some ⟨"7", "news", "alice", 0, 0⟩)]⟩)],
          false⟩ :=
  ⟨dispatch_loop_ordering_amended.1 wEx remSrvEx [ServerEvent.closeChannel "news"]
      [ServerEvent.shutdown],
    dispatch_loop_ordering_amended.2.1 .shutdown⟩
